import Mathlib

/-!
# sdc-mpc-controller: the per-cycle front end of `src/main.cpp`

A shallow embedding of `hasData`, `polyeval`, `polyfit`, `CreateWayPoints` and of the
message handler registered with `h.onMessage` in `main`.

Conventions of the embedding.

* A `std::string` is a `List Char`; `size_t` values are natural numbers below `2 ^ 64`
  and `string::npos` is the absent result of a search (`none`).
* An inbound frame is the pair `data`, `length` the handler receives: `data` lists the
  characters stored from the pointer on, the frame being the first `length` of them.
* A `double` is an exact real number (a field element): rounding is not modelled.
* `std::vector<double>` and `Eigen::VectorXd` are lists; `Eigen::MatrixXd` is a pair of
  dimensions with a coefficient function.
* A call that can leave the normal control flow (a thrown exception, a failed
  `assert`, an index outside a container) returns `Except.error` with the `Fault` raised.
* The libraries the file links against but does not contain (nlohmann `json.hpp`, the
  Eigen QR solver, the `MPC` class) are parameters of the handler.
-/

namespace MpcController

/-! ## Faults -/

/-- Ways in which a statement of `main.cpp` leaves the normal control flow. -/
inductive Fault where
  /-- an exception thrown by the JSON library (`json::parse`, `get`, a conversion) -/
  | jsonException (what : String)
  /-- a failed `assert(...)` of `main.cpp` -/
  | assertFailed (what : String)
  /-- an index outside an Eigen vector or matrix (Eigen's own range assertion) -/
  | eigenIndex
  /-- `operator[]` of a `std::vector` outside its size (undefined behaviour) -/
  | vectorIndex
  /-- a failure raised inside `MPC::Solve` -/
  | solverFailure (what : String)
  deriving DecidableEq, Repr

/-! ## `std::string` searches used by `hasData` -/

/-- The width of `size_t`. -/
def sizeBits : ℕ := 64

/-- Result of `s.find(pat)`: the smallest index at which `pat` occurs in `s`, `none` for
`string::npos`. -/
def strFind (pat : List Char) : List Char → Option ℕ
  | [] => if pat = [] then some 0 else none
  | c :: cs =>
    if pat.isPrefixOf (c :: cs) then some 0 else (strFind pat cs).map (· + 1)

/-- Result of `s.find_first_of(chars)`: the smallest index holding one of `chars`. -/
def strFindFirstOf (chars : List Char) : List Char → Option ℕ
  | [] => none
  | c :: cs => if c ∈ chars then some 0 else (strFindFirstOf chars cs).map (· + 1)

/-- Result of `s.rfind(pat)`: the largest index at which `pat` occurs in `s`. -/
def strRfind (pat : List Char) : List Char → Option ℕ
  | [] => if pat = [] then some 0 else none
  | c :: cs =>
    match strRfind pat cs with
    | some i => some (i + 1)
    | none => if pat.isPrefixOf (c :: cs) then some 0 else none

/-- Result of `s.substr(pos, len)` for `pos ≤ s.size()`: at most `len` characters
starting at `pos`. -/
def substr (s : List Char) (pos len : ℕ) : List Char :=
  (s.drop pos).take len

/-- Result of `string(data)` for a `char *data`: the characters before the first NUL. -/
def cString (data : List Char) : List Char :=
  data.takeWhile (· != '\x00')

/-- The `size_t` expression `b2 - b1 + 2`, computed modulo `2 ^ 64`. -/
def spanLength (b1 b2 : ℕ) : ℕ :=
  (b2 + 2 ^ sizeBits - b1 + 2) % 2 ^ sizeBits

/-- Embedding of `hasData` (main.cpp, lines 23-33). -/
def hasData (s : List Char) : List Char :=
  let found_null := strFind "null".toList s
  let b1 := strFindFirstOf "[".toList s
  let b2 := strRfind "\x7d]".toList s
  if found_null.isSome then
    []
  else
    match b1, b2 with
    | some b1, some b2 => substr s b1 (spanLength b1 b2)
    | _, _ => []

/-! ## Eigen containers -/

section Numeric

variable {K : Type} [Field K]

/-- Coefficient read `v(i)` / `v[i]` of an `Eigen::VectorXd` (range-checked by Eigen). -/
def VectorXd.get (v : List K) (i : ℕ) : Except Fault K :=
  match v[i]? with
  | some a => .ok a
  | none => .error .eigenIndex

/-- Coefficient write `v(i) = a` of an `Eigen::VectorXd` (range-checked by Eigen). -/
def VectorXd.set (v : List K) (i : ℕ) (a : K) : Except Fault (List K) :=
  if i < v.length then .ok (v.set i a) else .error .eigenIndex

/-- Read `v[i]` of a `std::vector<double>`; outside the size the behaviour is undefined. -/
def stdVectorAt (v : List K) (i : ℕ) : Except Fault K :=
  match v[i]? with
  | some a => .ok a
  | none => .error .vectorIndex

/-- An `Eigen::MatrixXd`: its dimensions and its coefficients. Only `coeff i j` with
`i < rows` and `j < cols` is storage of the matrix. -/
structure MatrixXd (K : Type) where
  rows : ℕ
  cols : ℕ
  coeff : ℕ → ℕ → K

/-- Coefficient read `A(i, j)`. -/
def MatrixXd.get (A : MatrixXd K) (i j : ℕ) : Except Fault K :=
  if i < A.rows ∧ j < A.cols then .ok (A.coeff i j) else .error .eigenIndex

/-- Coefficient write `A(i, j) = a`. -/
def MatrixXd.set (A : MatrixXd K) (i j : ℕ) (a : K) : Except Fault (MatrixXd K) :=
  if i < A.rows ∧ j < A.cols then
    .ok { A with coeff := fun r c => if r = i ∧ c = j then a else A.coeff r c }
  else .error .eigenIndex

/-- The rows of a matrix, as lists. -/
def MatrixXd.toLists (A : MatrixXd K) : List (List K) :=
  (List.range A.rows).map fun i => (List.range A.cols).map fun j => A.coeff i j

/-- The part of Eigen that `main.cpp` relies on without containing it. -/
structure Eigen (K : Type) where
  /-- content of coefficient `(i, j)` of freshly constructed storage: `VectorXd(n)` and
  `MatrixXd(n, m)` do not initialise their coefficients -/
  uninit : ℕ → ℕ → K
  /-- the vector returned by `A.householderQr().solve(b)` -/
  householderQrSolve : MatrixXd K → List K → List K

/-- Construction `Eigen::VectorXd v(n)`. -/
def Eigen.newVector (E : Eigen K) (n : ℕ) : List K :=
  (List.range n).map fun i => E.uninit i 0

/-- Construction `Eigen::MatrixXd A(n, m)`. -/
def Eigen.newMatrix (E : Eigen K) (n m : ℕ) : MatrixXd K :=
  { rows := n, cols := m, coeff := E.uninit }

/-- Total squared residual `Σ_i (Σ_j A(i,j) * c[j] - y[i])^2` of the coefficient vector
`c` for the system `A c = y`. -/
def residual (A : MatrixXd K) (y c : List K) : K :=
  ∑ i in Finset.range A.rows,
    (∑ j in Finset.range A.cols, A.coeff i j * c.getD j 0 - y.getD i 0) ^ 2

/-- Modelled from the spec: the result of Eigen's `householderQr().solve` (Eigen-3.3 is
vendored by the repository, not part of `src/`). Section 4.3: the fitter "returns the
coefficients minimizing total squared y-residual"; the solution has one coefficient per
column of the design matrix. -/
def IsLeastSquares [LE K] (A : MatrixXd K) (y c : List K) : Prop :=
  c.length = A.cols ∧ ∀ c' : List K, c'.length = A.cols → residual A y c ≤ residual A y c'

/-! ## `polyeval` and `polyfit` -/

/-- The loop of `polyeval`: `result += coeffs[i] * pow(x, i)` for the remaining
coefficients, `i` being the index of the first of them. -/
def polyevalLoop (x : K) : List K → ℕ → K → K
  | [], _, result => result
  | c :: cs, i, result => polyevalLoop x cs (i + 1) (result + c * x ^ i)

/-- Embedding of `polyeval` (main.cpp, lines 36-42). -/
def polyeval (coeffs : List K) (x : K) : K :=
  polyevalLoop x coeffs 0 0

/-- The design matrix `A` of `polyfit` as it stands before the QR solve
(main.cpp, lines 51-61). -/
def polyfitMatrix (E : Eigen K) (xvals : List K) (order : ℕ) : Except Fault (MatrixXd K) := do
  let A := E.newMatrix xvals.length (order + 1)
  let A ← (List.range xvals.length).foldlM (fun A i => MatrixXd.set A i 0 1) A
  (List.range xvals.length).foldlM
    (fun A j =>
      (List.range order).foldlM
        (fun A i => do
          let a ← MatrixXd.get A j i
          let x ← VectorXd.get xvals j
          MatrixXd.set A j (i + 1) (a * x))
        A)
    A

/-- Embedding of `polyfit` (main.cpp, lines 47-66). -/
def polyfit (E : Eigen K) (xvals yvals : List K) (order : ℕ) : Except Fault (List K) :=
  if xvals.length ≠ yvals.length then
    .error (.assertFailed "xvals.size() == yvals.size()")
  else if ¬ (1 ≤ order ∧ (order : ℤ) ≤ (xvals.length : ℤ) - 1) then
    .error (.assertFailed "order >= 1 && order <= xvals.size() - 1")
  else do
    let A ← polyfitMatrix E xvals order
    pure (E.householderQrSolve A yvals)

end Numeric

/-! ## Angles and the waypoint transform -/

/-- Embedding of `pi()` (main.cpp, line 16). -/
noncomputable def pi : ℝ := Real.pi

/-- Embedding of `deg2rad` (main.cpp, line 17). -/
noncomputable def deg2rad (x : ℝ) : ℝ := x * pi / 180

/-- Embedding of `rad2deg` (main.cpp, line 18). -/
noncomputable def rad2deg (x : ℝ) : ℝ := x * 180 / pi

/-- Embedding of `CreateWayPoints` (main.cpp, lines 68-81). The output vectors `x_wp`,
`y_wp` are passed by reference and come back as the result. -/
noncomputable def CreateWayPoints (x_wp y_wp : List ℝ) (x_mp y_mp : List ℝ)
    (x y psi : ℝ) : Except Fault (List ℝ × List ℝ) :=
  let cos_theta := Real.cos (-psi)
  let sin_theta := Real.sin (-psi)
  (List.range x_mp.length).foldlM
    (fun (wp : List ℝ × List ℝ) i => do
      let dx := (← stdVectorAt x_mp i) - x
      let dy := (← stdVectorAt y_mp i) - y
      let x_wp ← VectorXd.set wp.1 i (dx * cos_theta - dy * sin_theta)
      let y_wp ← VectorXd.set wp.2 i (dx * sin_theta + dy * cos_theta)
      pure (x_wp, y_wp))
    (x_wp, y_wp)

/-! ## The message handler -/

/-- The operations of nlohmann's `json.hpp` used by the handler; each either returns
or throws. `J` is the type of parsed documents. -/
structure JsonLib (J : Type) where
  /-- the call `json::parse(s)` -/
  parse : List Char → Except Fault J
  /-- the expression `j[0].get<string>()` -/
  getEvent : J → Except Fault (List Char)
  /-- the conversion `vector<double> v = j[1][key]` -/
  getVector : J → List Char → Except Fault (List ℝ)
  /-- the conversion `double d = j[1][key]` -/
  getDouble : J → List Char → Except Fault ℝ

/-- What `mpc.Solve` leaves behind: the returned vector and the two public
trajectory members of the `MPC` object. -/
structure MPCResult where
  actuator_output : List ℝ
  ai_waypoints_x_ : List ℝ
  ai_waypoints_y_ : List ℝ

/-- The external optimizer (`MPC.h`, not part of `src/`). -/
structure MPC where
  /-- the call `mpc.Solve(state_vector, poly)` -/
  Solve : List ℝ → List ℝ → Except Fault MPCResult

/-- The fields read from a telemetry event (main.cpp, lines 103-110). -/
structure Telemetry where
  ptsx : List ℝ
  ptsy : List ℝ
  px : ℝ
  py : ℝ
  psi : ℝ
  v : ℝ
  delta : ℝ
  a : ℝ

/-- The object `msgJson` of a steer reply. -/
structure SteerMsg where
  steering_angle : ℝ
  throttle : ℝ
  mpc_x : List ℝ
  mpc_y : List ℝ
  next_x : List ℝ
  next_y : List ℝ

/-- A text frame handed to `ws.send`. -/
inductive Frame where
  /-- a literal text -/
  | text (msg : List Char)
  /-- the text `"42[\"steer\"," + msgJson.dump() + "]"` -/
  | steer (msgJson : SteerMsg)

/-- The text of the manual-driving reply (main.cpp, line 227). -/
def manualMsg : List Char := "42[\"manual\",\x7b\x7d]".toList

/-- Field extraction of a telemetry event (main.cpp, lines 103-110). -/
def decodeTelemetry {J : Type} (lib : JsonLib J) (j : J) : Except Fault Telemetry := do
  let ptsx ← lib.getVector j "ptsx".toList
  let ptsy ← lib.getVector j "ptsy".toList
  let px ← lib.getDouble j "x".toList
  let py ← lib.getDouble j "y".toList
  let psi ← lib.getDouble j "psi".toList
  let v ← lib.getDouble j "speed".toList
  let delta ← lib.getDouble j "steering_angle".toList
  let a ← lib.getDouble j "throttle".toList
  pure { ptsx := ptsx, ptsy := ptsy, px := px, py := py, psi := psi, v := v,
         delta := delta, a := a }

/-- Transform of the waypoints to the vehicle frame (main.cpp, lines 114-116). -/
noncomputable def localWaypoints (E : Eigen ℝ) (t : Telemetry) :
    Except Fault (List ℝ × List ℝ) :=
  let local_wp_x := E.newVector t.ptsx.length
  let local_wp_y := E.newVector t.ptsy.length
  CreateWayPoints local_wp_x local_wp_y t.ptsx t.ptsy t.px t.py t.psi

/-- The state vector built from the fitted polynomial and the actuation, `v` being the
converted speed (main.cpp, lines 122-149). -/
noncomputable def predictState (poly : List ℝ) (v delta a : ℝ) : Except Fault (List ℝ) := do
  let cte := polyeval poly 0
  let epsi := -Real.arctan (← VectorXd.get poly 1)
  let dt : ℝ := 0.1
  let Lf : ℝ := 2.67
  let pred_px := 0.0 + v * dt
  let pred_py : ℝ := 0.0
  let pred_psi := 0.0 + v * -delta / Lf * dt
  let pred_v := v + a * dt
  let pred_cte := cte + v * Real.sin epsi * dt
  let pred_epsi := epsi + v * -delta / Lf * dt
  pure [pred_px, pred_py, pred_psi, pred_v, pred_cte, pred_epsi]

/-- The fitted polynomial and the state vector passed to `mpc.Solve`
(main.cpp, lines 111-149). -/
noncomputable def optimizerInput (E : Eigen ℝ) (t : Telemetry) :
    Except Fault (List ℝ × List ℝ) := do
  let v := t.v * (1609.344 / 3600)
  let (local_wp_x, local_wp_y) ← localWaypoints E t
  let poly ← polyfit E local_wp_x local_wp_y 3
  let state_vector ← predictState poly v t.delta t.a
  pure (state_vector, poly)

/-- The sampled reference line `next_x_vals`, `next_y_vals` (main.cpp, lines 193-202). -/
noncomputable def referenceTrace (poly : List ℝ) : List ℝ × List ℝ :=
  let poly_inc : ℝ := 2.5
  let num_points : ℕ := 25
  (List.range' 1 (num_points - 1)).foldl
    (fun (next : List ℝ × List ℝ) i =>
      let future_x := poly_inc * i
      let future_y := polyeval poly future_x
      (next.1 ++ [future_x], next.2 ++ [future_y]))
    ([], [])

/-- The telemetry branch of the handler (main.cpp, lines 103-223): the frame sent. -/
noncomputable def onTelemetry {J : Type} (lib : JsonLib J) (E : Eigen ℝ) (mpc : MPC) (j : J) :
    Except Fault Frame := do
  let t ← decodeTelemetry lib j
  let (state_vector, poly) ← optimizerInput E t
  let r ← mpc.Solve state_vector poly
  let angle_norm_factor := deg2rad 25
  let steer_value := (← stdVectorAt r.actuator_output 0) / angle_norm_factor
  let throttle_value ← stdVectorAt r.actuator_output 1
  let next := referenceTrace poly
  pure (Frame.steer
    { steering_angle := steer_value, throttle := throttle_value,
      mpc_x := r.ai_waypoints_x_, mpc_y := r.ai_waypoints_y_,
      next_x := next.1, next_y := next.2 })

/-- Embedding of the `onMessage` handler of `main` (main.cpp, lines 89-231), called with
the frame `data`, `length`. The result lists the frames passed to `ws.send`, in order;
an error is an exception or abort that leaves the handler, which `main` does not catch. -/
noncomputable def onMessage {J : Type} (lib : JsonLib J) (E : Eigen ℝ) (mpc : MPC)
    (data : List Char) (length : ℕ) : Except Fault (List Frame) :=
  let sdata := substr (cString data) 0 length
  if sdata.length > 2 ∧ sdata[0]? = some '4' ∧ sdata[1]? = some '2' then
    let s := hasData sdata
    if s ≠ [] then do
      let j ← lib.parse s
      let event ← lib.getEvent j
      if event = "telemetry".toList then do
        let msg ← onTelemetry lib E mpc j
        pure [msg]
      else
        pure []
    else
      pure [Frame.text manualMsg]
  else
    pure []

/-! ## Auxiliary definitions used by the statements -/

/-- The local coordinates of one world point. -/
noncomputable def toLocal (x y psi : ℝ) (p : ℝ × ℝ) : ℝ × ℝ :=
  ((p.1 - x) * Real.cos (-psi) - (p.2 - y) * Real.sin (-psi),
   (p.1 - x) * Real.sin (-psi) + (p.2 - y) * Real.cos (-psi))

section
variable {K : Type} [Field K]

/-- The Vandermonde design matrix of `xvals` for polynomials of degree `order`, inside
storage allocated by `E`. -/
def vandermondeMatrix (E : Eigen K) (xvals : List K) (order : ℕ) : MatrixXd K :=
  { rows := xvals.length
    cols := order + 1
    coeff := fun i j =>
      if i < xvals.length ∧ j ≤ order then xvals.getD i 0 ^ j else E.uninit i j }

/-- Coefficients of the design matrix while `polyfit` fills row `j`: the rows before `j`
are complete, row `j` is complete up to column `i`, the other rows hold their leading one. -/
def partialDesign (E : Eigen K) (xvals : List K) (m j i : ℕ) (r c : ℕ) : K :=
  if (r < j ∧ c ≤ m) ∨ (r = j ∧ c ≤ i) then xvals.getD r 0 ^ c
  else if r < xvals.length ∧ c = 0 then 1
  else E.uninit r c

end

/-- An instance of the Eigen parameter for concrete examples: fresh storage reads as 0
and the QR solve returns the vector `c` whatever the system. -/
def fixedSolver {K : Type} [Field K] (c : List K) : Eigen K :=
  { uninit := fun _ _ => 0, householderQrSolve := fun _ _ => c }

/-- A telemetry record for concrete examples: four waypoints on the x axis, the vehicle
at the origin with heading 0, at speed `v`. -/
noncomputable def axisTelemetry (v : ℝ) : Telemetry :=
  { ptsx := [0, 1, 2, 3], ptsy := [0, 0, 0, 0], px := 0, py := 0, psi := 0, v := v,
    delta := 0.1, a := 0.5 }

/-- A JSON library instance for concrete examples. Its documents are event names: the
text `["connect",{}]` parses to the event "connect", any other text is a parse error,
and no document has telemetry fields. -/
def connectOnlyJson : JsonLib (List Char) :=
  { parse := fun s =>
      if s = "[\"connect\",\x7b\x7d]".toList then .ok "connect".toList
      else .error (.jsonException "parse error")
    getEvent := fun j => .ok j
    getVector := fun _ _ => .error (.jsonException "type error")
    getDouble := fun _ _ => .error (.jsonException "type error") }

/-- An optimizer instance for concrete examples: it returns zero actuation and no
trajectory. -/
noncomputable def idleMPC : MPC :=
  { Solve := fun _ _ =>
      .ok { actuator_output := [0, 0], ai_waypoints_x_ := [], ai_waypoints_y_ := [] } }

/-- A telemetry record for concrete examples: the vehicle at rest at the origin with
heading 0, no actuation, and the given waypoints. -/
def restTelemetry (ptsx ptsy : List ℝ) : Telemetry :=
  { ptsx := ptsx, ptsy := ptsy, px := 0, py := 0, psi := 0, v := 0, delta := 0, a := 0 }

/-- A JSON library instance for concrete examples: the text `span` parses to the one
document whose event is "telemetry" and whose payload holds the fields of `t`; any other
text is a parse error and any other key a type error. -/
def telemetryJson (span : List Char) (t : Telemetry) : JsonLib Unit :=
  { parse := fun s => if s = span then .ok () else .error (.jsonException "parse error")
    getEvent := fun _ => .ok "telemetry".toList
    getVector := fun _ key =>
      if key = "ptsx".toList then .ok t.ptsx
      else if key = "ptsy".toList then .ok t.ptsy
      else .error (.jsonException "type error")
    getDouble := fun _ key =>
      if key = "x".toList then .ok t.px
      else if key = "y".toList then .ok t.py
      else if key = "psi".toList then .ok t.psi
      else if key = "speed".toList then .ok t.v
      else if key = "steering_angle".toList then .ok t.delta
      else if key = "throttle".toList then .ok t.a
      else .error (.jsonException "type error") }

/-- The telemetry message of the spec's decoder scenario: two reference points. -/
def twoPointMsg : List Char :=
  ("42[\"telemetry\",\x7b\"ptsx\":[0,10],\"ptsy\":[0,0],\"x\":0,\"y\":0,\"psi\":0," ++
    "\"speed\":0,\"steering_angle\":0,\"throttle\":0\x7d]").toList

/-- A telemetry message with four reference points on the x axis. -/
def fourPointMsg : List Char :=
  ("42[\"telemetry\",\x7b\"ptsx\":[0,1,2,3],\"ptsy\":[0,0,0,0],\"x\":0,\"y\":0,\"psi\":0," ++
    "\"speed\":0,\"steering_angle\":0,\"throttle\":0\x7d]").toList

/-- An optimizer instance for concrete examples: it returns the vector `out` and no
trajectory, whatever the state. -/
def fixedMPC (out : List ℝ) : MPC :=
  { Solve := fun _ _ =>
      .ok { actuator_output := out, ai_waypoints_x_ := [], ai_waypoints_y_ := [] } }

/-- The JSON library instance that parses the span of `twoPointMsg`. -/
def twoPointJson : JsonLib Unit :=
  telemetryJson (twoPointMsg.drop 2) (restTelemetry [0, 10] [0, 0])

/-- The JSON library instance that parses the span of `fourPointMsg`. -/
def fourPointJson : JsonLib Unit :=
  telemetryJson (fourPointMsg.drop 2) (restTelemetry [0, 1, 2, 3] [0, 0, 0, 0])

/-! # Theorems -/

/-! ## Properties of the string searches -/

theorem strFind_eq_none_iff (pat s : List Char) :
    strFind pat s = none ↔ ¬ pat <:+: s := by
  induction s with
  | nil =>
    by_cases h : pat = [] <;> simp [strFind, h]
  | cons c cs ih =>
    rw [strFind, List.infix_cons_iff]
    by_cases h : pat <+: c :: cs
    · simp [List.isPrefixOf_iff_prefix, h]
    · simp [List.isPrefixOf_iff_prefix, h, ih]

theorem strRfind_eq_none_iff (pat s : List Char) :
    strRfind pat s = none ↔ ¬ pat <:+: s := by
  induction s with
  | nil =>
    by_cases h : pat = [] <;> simp [strRfind, h]
  | cons c cs ih =>
    rw [strRfind, List.infix_cons_iff]
    cases hr : strRfind pat cs with
    | some i =>
      have : pat <:+: cs := by
        by_contra hc
        rw [← ih, hr] at hc
        exact absurd hc (by simp)
      simp [this]
    | none =>
      have : ¬ pat <:+: cs := ih.mp hr
      by_cases h : pat <+: c :: cs <;> simp [List.isPrefixOf_iff_prefix, h, this]

theorem strFindFirstOf_eq_none_iff (chars s : List Char) :
    strFindFirstOf chars s = none ↔ ∀ c ∈ s, c ∉ chars := by
  induction s with
  | nil => simp [strFindFirstOf]
  | cons c cs ih =>
    rw [strFindFirstOf]
    by_cases h : c ∈ chars <;> simp [h, ih]

/-- The first index holding a character of `chars` is what `find_first_of` returns. -/
theorem strFindFirstOf_eq_some (chars s : List Char) (b : ℕ) (c : Char)
    (hb : s[b]? = some c) (hc : c ∈ chars)
    (hfirst : ∀ i < b, ∀ d, s[i]? = some d → d ∉ chars) :
    strFindFirstOf chars s = some b := by
  induction s generalizing b with
  | nil => simp at hb
  | cons a as ih =>
    rw [strFindFirstOf]
    cases b with
    | zero =>
      simp at hb
      simp [hb, hc]
    | succ k =>
      have ha : a ∉ chars := hfirst 0 (Nat.succ_pos k) a (by simp)
      have := ih k (by simpa using hb) (fun i hi d hd => hfirst (i + 1) (by omega) d (by simpa using hd))
      simp [ha, this]

/-- An occurrence of `pat` as infix is an occurrence at some index. -/
theorem infix_iff_prefix_drop (pat s : List Char) :
    pat <:+: s ↔ ∃ j, pat <+: s.drop j := by
  constructor
  · rintro ⟨p, q, rfl⟩
    exact ⟨p.length, by simp [List.append_assoc]⟩
  · rintro ⟨j, q, hq⟩
    exact ⟨s.take j, q, by rw [List.append_assoc, hq, List.take_append_drop]⟩

/-- The last index at which `pat` occurs is what `rfind` returns. -/
theorem strRfind_eq_some (pat s : List Char) (b : ℕ)
    (hb : pat <+: s.drop b) (hpat : pat ≠ [])
    (hlast : ∀ j, b < j → ¬ pat <+: s.drop j) :
    strRfind pat s = some b := by
  induction s generalizing b with
  | nil =>
    simp at hb
    exact absurd hb hpat
  | cons a as ih =>
    rw [strRfind]
    cases b with
    | zero =>
      have hn : strRfind pat as = none := by
        rw [strRfind_eq_none_iff, infix_iff_prefix_drop]
        rintro ⟨j, hj⟩
        exact hlast (j + 1) (Nat.succ_pos j) (by simpa using hj)
      have h0 : pat <+: a :: as := by simpa using hb
      simp [hn, List.isPrefixOf_iff_prefix, h0]
    | succ k =>
      have := ih k (by simpa using hb) (fun j hj => by simpa using hlast (j + 1) (by omega))
      simp [this]

theorem pair_prefix_drop_iff (a b : Char) (s : List Char) (j : ℕ) :
    [a, b] <+: s.drop j ↔ s[j]? = some a ∧ s[j + 1]? = some b := by
  have h0 : (s.drop j)[0]? = s[j]? := by simp
  have h1 : (s.drop j)[1]? = s[j + 1]? := by simp
  rw [← h0, ← h1]
  generalize s.drop j = t
  rcases t with _ | ⟨x, _ | ⟨y, r⟩⟩
  · simp
  · simp
  · simp [List.cons_prefix_cons, eq_comm]

theorem spanLength_of_le (b1 b2 : ℕ) (h : b1 ≤ b2) (hlt : b2 + 2 < 2 ^ 64) :
    spanLength b1 b2 = b2 + 2 - b1 := by
  unfold spanLength sizeBits
  have : b2 + 2 ^ 64 - b1 + 2 = (b2 + 2 - b1) + 2 ^ 64 := by omega
  rw [this, Nat.add_mod_right, Nat.mod_eq_of_lt (by omega)]

/-- The general part of the span extraction. -/
theorem hasData_eq_span (s : List Char) (b1 b2 : ℕ)
    (hlen : s.length < 2 ^ 64)
    (hnull : ¬ "null".toList <:+: s)
    (hb1 : s[b1]? = some '[') (hfirst : ∀ i < b1, s[i]? ≠ some '[')
    (hb2 : s[b2]? = some '\x7d' ∧ s[b2 + 1]? = some ']')
    (hlast : ∀ j, b2 < j → ¬ (s[j]? = some '\x7d' ∧ s[j + 1]? = some ']'))
    (hle : b1 ≤ b2) :
    hasData s = (s.drop b1).take (b2 + 2 - b1) ∧ (hasData s).length = b2 + 2 - b1 := by
  have hfn : strFind "null".toList s = none := (strFind_eq_none_iff _ _).mpr hnull
  have hf1 : strFindFirstOf "[".toList s = some b1 :=
    strFindFirstOf_eq_some _ s b1 '[' hb1 (by decide)
      (fun i hi d hd hmem => hfirst i hi (by
        have : d = '[' := by simpa using hmem
        rw [hd, this]))
  have hf2 : strRfind "\x7d]".toList s = some b2 :=
    strRfind_eq_some _ s b2 ((pair_prefix_drop_iff _ _ s b2).mpr hb2) (by decide)
      (fun j hj hp => hlast j hj ((pair_prefix_drop_iff _ _ s j).mp hp))
  have hin : b2 + 1 < s.length := by
    by_contra hc
    have := List.getElem?_eq_none (l := s) (n := b2 + 1) (by omega)
    rw [this] at hb2
    exact absurd hb2.2 (by simp)
  have hsp := spanLength_of_le b1 b2 hle (by omega)
  have hd : hasData s = (s.drop b1).take (b2 + 2 - b1) := by
    simp only [hasData, hfn, hf1, hf2, substr, hsp]
    simp
  refine ⟨hd, ?_⟩
  rw [hd, List.length_take, List.length_drop]
  omega

/-- The three ways in which `hasData` finds no span. -/
theorem hasData_eq_nil (s : List Char)
    (h : "null".toList <:+: s ∨ '[' ∉ s ∨ ¬ "\x7d]".toList <:+: s) :
    hasData s = [] := by
  simp only [hasData]
  rcases h with h | h | h
  · have : (strFind "null".toList s).isSome := by
      rw [Option.isSome_iff_ne_none, Ne, strFind_eq_none_iff]
      exact not_not.mpr h
    rw [if_pos this]
  · have : strFindFirstOf "[".toList s = none := by
      rw [strFindFirstOf_eq_none_iff]
      intro c hc hmem
      have : c = '[' := by simpa using hmem
      exact h (this ▸ hc)
    rw [this]
    split <;> rfl
  · have : strRfind "\x7d]".toList s = none := (strRfind_eq_none_iff _ _).mpr h
    rw [this]
    split
    · rfl
    · cases strFindFirstOf "[".toList s <;> rfl

/-- C7: `hasData` returns the empty string ("no telemetry") whenever its argument
contains the substring "null", and also whenever it contains no '[' or no "}]". -/
theorem hasData_no_telemetry (s : List Char)
    (h : "null".toList <:+: s ∨ '[' ∉ s ∨ ¬ "\x7d]".toList <:+: s) :
    hasData s = [] :=
  hasData_eq_nil s h

/-- Witness for C7: one message of each kind. -/
theorem hasData_no_telemetry_witness :
    hasData "42[\"telemetry\",null]".toList = [] ∧ hasData "42\x7d]".toList = [] ∧
      hasData "42[1,2]".toList = [] :=
  ⟨hasData_no_telemetry _ (Or.inl (by decide)),
   hasData_no_telemetry _ (Or.inr (Or.inl (by decide))),
   hasData_no_telemetry _ (Or.inr (Or.inr (by decide)))⟩

/-- C8: for a string without "null" whose first '[' is at `b1` and whose last "}]" starts
at `b2 ≥ b1`, `hasData` returns the characters at the indices `b1, ..., b2 + 1`; in
particular it returns `body` for "42" followed by a `body` that starts with '[' and ends
with "}]". -/
theorem hasData_extracts_span :
    (∀ (s : List Char) (b1 b2 : ℕ), s.length < 2 ^ 64 → ¬ "null".toList <:+: s →
      s[b1]? = some '[' → (∀ i < b1, s[i]? ≠ some '[') →
      (s[b2]? = some '\x7d' ∧ s[b2 + 1]? = some ']') →
      (∀ j, b2 < j → ¬ (s[j]? = some '\x7d' ∧ s[j + 1]? = some ']')) →
      b1 ≤ b2 →
      hasData s = (s.drop b1).take (b2 + 2 - b1) ∧ (hasData s).length = b2 + 2 - b1) ∧
    (∀ body : List Char, ("42".toList ++ body).length < 2 ^ 64 →
      ¬ "null".toList <:+: "42".toList ++ body →
      body.head? = some '[' → "\x7d]".toList <:+ body →
      hasData ("42".toList ++ body) = body) := by
  refine ⟨fun s b1 b2 hlen hnull hb1 hfirst hb2 hlast hle =>
    hasData_eq_span s b1 b2 hlen hnull hb1 hfirst hb2 hlast hle, ?_⟩
  intro body hlen hnull hhead hsuf
  obtain ⟨pre, rfl⟩ := hsuf
  have hpre : pre ≠ [] := by
    rintro rfl
    simp at hhead
  have hpl : 1 ≤ pre.length := List.length_pos.mpr hpre
  have key := hasData_eq_span ("42".toList ++ (pre ++ "\x7d]".toList)) 2 (pre.length + 2) hlen hnull
    (by
      cases pre with
      | nil => exact absurd rfl hpre
      | cons a as => simpa using hhead)
    (by
      intro i hi
      interval_cases i <;> simp)
    (by
      constructor
      · show ('4' :: '2' :: (pre ++ ['\x7d', ']']))[pre.length + 2]? = _
        rw [List.getElem?_cons_succ, List.getElem?_cons_succ,
          List.getElem?_append_right (le_refl _)]
        simp
      · show ('4' :: '2' :: (pre ++ ['\x7d', ']']))[pre.length + 1 + 1 + 1]? = _
        rw [List.getElem?_cons_succ, List.getElem?_cons_succ,
          List.getElem?_append_right (by omega)]
        simp)
    (by
      intro j hj hc
      have : ("42".toList ++ (pre ++ "\x7d]".toList))[j + 1]? = none := by
        apply List.getElem?_eq_none
        simp
        omega
      rw [this] at hc
      exact absurd hc.2 (by simp))
    (by omega)
  rw [key.1]
  show List.take _ (List.drop 2 ('4' :: '2' :: (pre ++ ['\x7d', ']']))) = _
  simp

/-- Witness for C8: a telemetry-shaped message, through both parts. -/
theorem hasData_extracts_span_witness :
    hasData "42[\"telemetry\",\x7b\"x\":1\x7d]".toList
        = (("42[\"telemetry\",\x7b\"x\":1\x7d]".toList).drop 2).take (21 + 2 - 2) ∧
      hasData ("42".toList ++ "[\"telemetry\",\x7b\"x\":1\x7d]".toList)
        = "[\"telemetry\",\x7b\"x\":1\x7d]".toList :=
  ⟨(hasData_extracts_span.1 "42[\"telemetry\",\x7b\"x\":1\x7d]".toList 2 21 (by decide) (by decide)
      (by decide) (by decide) (by decide)
      (by
        intro j hj hc
        have : ("42[\"telemetry\",\x7b\"x\":1\x7d]".toList)[j + 1]? = none :=
          List.getElem?_eq_none (by simp; omega)
        rw [this] at hc
        exact absurd hc.2 (by simp))
      (by decide)).1,
   hasData_extracts_span.2 "[\"telemetry\",\x7b\"x\":1\x7d]".toList (by decide) (by decide)
      (by decide) (by decide)⟩

/-! ## Loops -/

/-- Invariant rule for a counted loop `for (i = 0; i < n; i++)` whose body may fault:
if the invariant holds at entry and each iteration below `n` runs without fault and
re-establishes it, the loop runs to completion and the invariant holds at exit. -/
theorem foldlM_range_invariant {σ ε : Type} (body : σ → ℕ → Except ε σ)
    (Inv : ℕ → σ → Prop) (n : ℕ) (s0 : σ) (h0 : Inv 0 s0)
    (hstep : ∀ i s, i < n → Inv i s → ∃ s', body s i = .ok s' ∧ Inv (i + 1) s') :
    ∃ s', (List.range n).foldlM body s0 = .ok s' ∧ Inv n s' := by
  induction n with
  | zero => exact ⟨s0, rfl, h0⟩
  | succ m ih =>
    obtain ⟨s1, h1, hI⟩ := ih (fun i s hi => hstep i s (Nat.lt_succ_of_lt hi))
    obtain ⟨s2, h2, hI2⟩ := hstep m s1 (Nat.lt_succ_self m) hI
    refine ⟨s2, ?_, hI2⟩
    rw [List.range_succ, List.foldlM_append, h1]
    show (List.foldlM body s1 [m]) = _
    rw [List.foldlM_cons, h2]
    rfl

theorem stdVectorAt_eq_ok {K : Type} (v : List K) (i : ℕ) (h : i < v.length) :
    stdVectorAt v i = .ok v[i] := by
  simp [stdVectorAt, List.getElem?_eq_getElem h]

theorem VectorXd_get_eq_ok {K : Type} (v : List K) (i : ℕ) (h : i < v.length) :
    VectorXd.get v i = .ok v[i] := by
  simp [VectorXd.get, List.getElem?_eq_getElem h]

/-- On parallel arrays of equal length, with output vectors of that length,
`CreateWayPoints` runs to completion and overwrites every output coefficient. -/
theorem CreateWayPoints_eq (x y psi : ℝ) (pts : List (ℝ × ℝ)) (x_wp y_wp : List ℝ)
    (hx : x_wp.length = pts.length) (hy : y_wp.length = pts.length) :
    CreateWayPoints x_wp y_wp (pts.map Prod.fst) (pts.map Prod.snd) x y psi
      = .ok ((pts.map (toLocal x y psi)).map Prod.fst,
             (pts.map (toLocal x y psi)).map Prod.snd) := by
  unfold CreateWayPoints
  simp only [List.length_map]
  obtain ⟨⟨lx, ly⟩, hrun, hlx, hly, hval⟩ := foldlM_range_invariant
    (fun (wp : List ℝ × List ℝ) i => do
      let dx := (← stdVectorAt (pts.map Prod.fst) i) - x
      let dy := (← stdVectorAt (pts.map Prod.snd) i) - y
      let x_wp ← VectorXd.set wp.1 i (dx * Real.cos (-psi) - dy * Real.sin (-psi))
      let y_wp ← VectorXd.set wp.2 i (dx * Real.sin (-psi) + dy * Real.cos (-psi))
      pure (x_wp, y_wp))
    (fun i wp => wp.1.length = pts.length ∧ wp.2.length = pts.length ∧
      ∀ k < i, wp.1[k]? = ((pts.map (toLocal x y psi)).map Prod.fst)[k]? ∧
               wp.2[k]? = ((pts.map (toLocal x y psi)).map Prod.snd)[k]?)
    pts.length (x_wp, y_wp) ⟨hx, hy, fun k hk => absurd hk (Nat.not_lt_zero k)⟩
    (by
      rintro i ⟨xw, yw⟩ hi ⟨h1, h2, h3⟩
      simp only at h1 h2 h3
      refine ⟨(xw.set i (toLocal x y psi pts[i]).1, yw.set i (toLocal x y psi pts[i]).2), ?_, ?_⟩
      · beta_reduce
        rw [stdVectorAt_eq_ok _ i (by simpa using hi), stdVectorAt_eq_ok _ i (by simpa using hi)]
        simp [VectorXd.set, h1, h2, hi, toLocal, bind, Except.bind, pure, Except.pure]
      · refine ⟨by simpa using h1, by simpa using h2, fun k hk => ?_⟩
        rcases Nat.lt_succ_iff_lt_or_eq.mp hk with hlt | rfl
        · have hne : i ≠ k := by omega
          simp only [List.getElem?_set_ne hne]
          exact h3 k hlt
        · simp [List.getElem?_set_self, h1, h2, hi, List.getElem?_eq_getElem])
  simp only at hlx hly hval
  rw [hrun]
  congr 2
  · apply List.ext_getElem?
    intro k
    by_cases hk : k < pts.length
    · exact (hval k hk).1
    · rw [List.getElem?_eq_none (by omega), List.getElem?_eq_none (by simp; omega)]
  · apply List.ext_getElem?
    intro k
    by_cases hk : k < pts.length
    · exact (hval k hk).2
    · rw [List.getElem?_eq_none (by omega), List.getElem?_eq_none (by simp; omega)]

theorem MatrixXd_ext {K : Type} {A B : MatrixXd K} (hr : A.rows = B.rows) (hc : A.cols = B.cols)
    (h : ∀ i j, A.coeff i j = B.coeff i j) : A = B := by
  cases A; cases B
  simp only at hr hc h
  subst hr hc
  congr
  funext i j
  exact h i j


section
variable {K : Type} [Field K]

/-- The first loop of `polyfit` writes the column of ones. -/
theorem polyfit_ones_loop (E : Eigen K) (n m : ℕ) :
    ∃ A, (List.range n).foldlM (fun A i => MatrixXd.set A i 0 1) (E.newMatrix n (m + 1))
        = .ok A ∧ A.rows = n ∧ A.cols = m + 1 ∧
      ∀ r c, A.coeff r c = if r < n ∧ c = 0 then 1 else E.uninit r c := by
  obtain ⟨A, hA, hr, hc, hv⟩ := foldlM_range_invariant
    (fun A i => MatrixXd.set A i 0 (1 : K))
    (fun i A => A.rows = n ∧ A.cols = m + 1 ∧
      ∀ r c, A.coeff r c = if r < i ∧ c = 0 then 1 else E.uninit r c)
    n (E.newMatrix n (m + 1))
    ⟨rfl, rfl, fun r c => by simp [Eigen.newMatrix]⟩
    (by
      rintro i A hi ⟨hr, hc, hv⟩
      refine ⟨{ A with coeff := fun r c => if r = i ∧ c = 0 then 1 else A.coeff r c }, ?_, hr, hc, ?_⟩
      · simp [MatrixXd.set, hr, hc, hi]
      · intro r c
        simp only [hv]
        by_cases h1 : r = i ∧ c = 0
        · obtain ⟨rfl, rfl⟩ := h1
          simp
        · by_cases h2 : r < i ∧ c = 0
          · have : r < i + 1 ∧ c = 0 := ⟨by omega, h2.2⟩
            simp [h1, h2, this]
          · have : ¬ (r < i + 1 ∧ c = 0) := by
              rintro ⟨h3, h4⟩
              rcases Nat.lt_succ_iff_lt_or_eq.mp h3 with h5 | h5
              · exact h2 ⟨h5, h4⟩
              · exact h1 ⟨h5, h4⟩
            simp [h1, h2, this])
  exact ⟨A, hA, hr, hc, hv⟩

end

section
variable {K : Type} [Field K]

theorem partialDesign_next_row (E : Eigen K) (xvals : List K) (m j : ℕ)
    (hj : j + 1 < xvals.length) (r c : ℕ) :
    partialDesign E xvals m j m r c = partialDesign E xvals m (j + 1) 0 r c := by
  unfold partialDesign
  by_cases h1 : (r < j ∧ c ≤ m) ∨ (r = j ∧ c ≤ m)
  · have h2 : (r < j + 1 ∧ c ≤ m) ∨ (r = j + 1 ∧ c ≤ 0) := by
      rcases h1 with h | h
      · exact Or.inl ⟨by omega, h.2⟩
      · exact Or.inl ⟨by omega, h.2⟩
    rw [if_pos h1, if_pos h2]
  · rw [if_neg h1]
    by_cases h2 : (r < j + 1 ∧ c ≤ m) ∨ (r = j + 1 ∧ c ≤ 0)
    · rw [if_pos h2]
      rcases h2 with h | h
      · exfalso
        apply h1
        rcases Nat.lt_succ_iff_lt_or_eq.mp h.1 with h3 | h3
        · exact Or.inl ⟨h3, h.2⟩
        · exact Or.inr ⟨h3, h.2⟩
      · obtain ⟨rfl, hc⟩ := h
        have hc0 : c = 0 := by omega
        subst hc0
        simp [hj]
    · rw [if_neg h2]

/-- One row of the second loop nest of `polyfit`. -/
theorem polyfit_row_loop (E : Eigen K) (xvals : List K) (m j : ℕ) (hj : j < xvals.length)
    (A : MatrixXd K) (hr : A.rows = xvals.length) (hc : A.cols = m + 1)
    (hv : ∀ r c, A.coeff r c = partialDesign E xvals m j 0 r c) :
    ∃ B, (List.range m).foldlM
        (fun A i => do
          let a ← MatrixXd.get A j i
          let x ← VectorXd.get xvals j
          MatrixXd.set A j (i + 1) (a * x)) A = .ok B ∧
      B.rows = xvals.length ∧ B.cols = m + 1 ∧
      ∀ r c, B.coeff r c = partialDesign E xvals m j m r c := by
  refine foldlM_range_invariant _
    (fun i B => B.rows = xvals.length ∧ B.cols = m + 1 ∧
      ∀ r c, B.coeff r c = partialDesign E xvals m j i r c)
    m A ⟨hr, hc, hv⟩ ?_
  rintro i B hi ⟨hr, hc, hv⟩
  refine ⟨{ B with coeff := fun r c =>
      if r = j ∧ c = i + 1 then B.coeff j i * xvals.getD j 0 else B.coeff r c }, ?_, hr, hc, ?_⟩
  · have hget : MatrixXd.get B j i = .ok (B.coeff j i) := by
      simp [MatrixXd.get, hr, hc, hj]
      omega
    have hx : VectorXd.get xvals j = .ok (xvals.getD j 0) := by
      rw [VectorXd_get_eq_ok xvals j hj]
      simp [List.getD_eq_getElem?_getD, List.getElem?_eq_getElem hj]
    simp only [hget, hx, bind, Except.bind]
    simp [MatrixXd.set, hr, hc, hj, hi]
  · intro r c
    simp only
    by_cases h1 : r = j ∧ c = i + 1
    · obtain ⟨rfl, rfl⟩ := h1
      have h2 : (r < r ∧ i + 1 ≤ m) ∨ (r = r ∧ i + 1 ≤ i + 1) := Or.inr ⟨rfl, le_refl _⟩
      have h3 : (r < r ∧ i ≤ m) ∨ (r = r ∧ i ≤ i) := Or.inr ⟨rfl, le_refl _⟩
      rw [hv]
      unfold partialDesign
      rw [if_pos h3, if_pos h2, pow_succ, if_pos ⟨rfl, rfl⟩]
    · rw [if_neg h1, hv]
      unfold partialDesign
      by_cases h2 : (r < j ∧ c ≤ m) ∨ (r = j ∧ c ≤ i)
      · have h3 : (r < j ∧ c ≤ m) ∨ (r = j ∧ c ≤ i + 1) := by
          rcases h2 with h | h
          · exact Or.inl h
          · exact Or.inr ⟨h.1, by omega⟩
        rw [if_pos h2, if_pos h3]
      · have h3 : ¬ ((r < j ∧ c ≤ m) ∨ (r = j ∧ c ≤ i + 1)) := by
          rintro (h | h)
          · exact h2 (Or.inl h)
          · rcases Nat.le_succ_iff.mp h.2 with h4 | h4
            · exact h2 (Or.inr ⟨h.1, h4⟩)
            · exact h1 ⟨h.1, h4⟩
        rw [if_neg h2, if_neg h3]

/-- When the loops of `polyfit` run on `n` abscissae, they complete without fault and
leave the `n × (order + 1)` Vandermonde matrix. -/
theorem polyfitMatrix_eq (E : Eigen K) (xvals : List K) (order : ℕ) :
    polyfitMatrix E xvals order = .ok (vandermondeMatrix E xvals order) := by
  obtain ⟨A1, h1, hr1, hc1, hv1⟩ := polyfit_ones_loop E xvals.length order
  obtain ⟨A2, h2, hr2, hc2, hv2⟩ := foldlM_range_invariant
    (fun A j =>
      (List.range order).foldlM
        (fun A i => do
          let a ← MatrixXd.get A j i
          let x ← VectorXd.get xvals j
          MatrixXd.set A j (i + 1) (a * x))
        A)
    (fun j A => A.rows = xvals.length ∧ A.cols = order + 1 ∧
      ∀ r c, A.coeff r c =
        if j < xvals.length then partialDesign E xvals order j 0 r c
        else (vandermondeMatrix E xvals order).coeff r c)
    xvals.length A1
    ⟨hr1, hc1, fun r c => by
      rw [hv1]
      by_cases hn : 0 < xvals.length
      · rw [if_pos hn]
        unfold partialDesign
        by_cases h : (r < 0 ∧ c ≤ order) ∨ (r = 0 ∧ c ≤ 0)
        · rw [if_pos h]
          rcases h with h | h
          · exact absurd h.1 (Nat.not_lt_zero r)
          · obtain ⟨rfl, hc⟩ := h
            have hc0 : c = 0 := by omega
            subst hc0
            rw [if_pos ⟨hn, rfl⟩, pow_zero]
        · rw [if_neg h]
      · rw [if_neg hn]
        simp only [vandermondeMatrix]
        have : ¬ r < xvals.length := by omega
        simp [this]⟩
    (by
      rintro j A hj ⟨hr, hc, hv⟩
      simp only [if_pos hj] at hv
      obtain ⟨B, hB, hrB, hcB, hvB⟩ := polyfit_row_loop E xvals order j hj A hr hc hv
      refine ⟨B, hB, hrB, hcB, fun r c => ?_⟩
      rw [hvB]
      by_cases hn : j + 1 < xvals.length
      · rw [if_pos hn]
        exact partialDesign_next_row E xvals order j hn r c
      · rw [if_neg hn]
        have hjn : j + 1 = xvals.length := by omega
        simp only [vandermondeMatrix, partialDesign]
        by_cases h3 : r < xvals.length ∧ c ≤ order
        · have : (r < j ∧ c ≤ order) ∨ (r = j ∧ c ≤ order) := by
            rcases Nat.lt_succ_iff_lt_or_eq.mp (hjn ▸ h3.1) with h4 | h4
            · exact Or.inl ⟨h4, h3.2⟩
            · exact Or.inr ⟨h4, h3.2⟩
          rw [if_pos this, if_pos h3]
        · have : ¬ ((r < j ∧ c ≤ order) ∨ (r = j ∧ c ≤ order)) := by
            rintro (h | h)
            · exact h3 ⟨by omega, h.2⟩
            · exact h3 ⟨by omega, h.2⟩
          rw [if_neg this, if_neg h3]
          have : ¬ (r < xvals.length ∧ c = 0) := fun h => h3 ⟨h.1, by omega⟩
          rw [if_neg this])
  have hA2 : A2 = vandermondeMatrix E xvals order :=
    MatrixXd_ext hr2 hc2 (fun r c => by rw [hv2, if_neg (lt_irrefl _)])
  unfold polyfitMatrix
  simp only []
  rw [h1]
  show List.foldlM _ A1 _ = _
  rw [h2, hA2]

end

section
variable {K : Type} [Field K]

theorem polyevalLoop_eq_sum (x : K) (cs : List K) (i : ℕ) (acc : K) :
    polyevalLoop x cs i acc
      = acc + ∑ j in Finset.range cs.length, cs.getD j 0 * x ^ (i + j) := by
  induction cs generalizing i acc with
  | nil => simp [polyevalLoop]
  | cons c cs ih =>
    rw [polyevalLoop, ih, List.length_cons, Finset.sum_range_succ']
    simp only [List.getD_cons_succ, List.getD_cons_zero, add_zero]
    have : ∀ j, i + 1 + j = i + (j + 1) := fun j => by omega
    simp only [this]
    ring

/-- The value of `polyeval` is the polynomial sum. -/
theorem polyeval_eq_sum (coeffs : List K) (x : K) :
    polyeval coeffs x = ∑ j in Finset.range coeffs.length, coeffs.getD j 0 * x ^ j := by
  rw [polyeval, polyevalLoop_eq_sum]
  simp

/-- A row of the Vandermonde system applied to a coefficient vector is `polyeval`. -/
theorem vandermonde_row (E : Eigen K) (xvals c : List K) (order i : ℕ)
    (hi : i < xvals.length) (hc : c.length = order + 1) :
    ∑ j in Finset.range (vandermondeMatrix E xvals order).cols,
        (vandermondeMatrix E xvals order).coeff i j * c.getD j 0
      = polyeval c (xvals.getD i 0) := by
  rw [polyeval_eq_sum, hc]
  apply Finset.sum_congr rfl
  intro j hj
  have hj' : j ≤ order := by
    have := Finset.mem_range.mp hj
    simp only [vandermondeMatrix] at this
    omega
  simp only [vandermondeMatrix, if_pos (And.intro hi hj')]
  ring

end

section
variable {K : Type} [LinearOrderedField K]

theorem residual_nonneg (A : MatrixXd K) (y c : List K) : 0 ≤ residual A y c :=
  Finset.sum_nonneg fun _ _ => sq_nonneg _

theorem residual_eq_zero_iff (A : MatrixXd K) (y c : List K) :
    residual A y c = 0 ↔
      ∀ i < A.rows, ∑ j in Finset.range A.cols, A.coeff i j * c.getD j 0 = y.getD i 0 := by
  unfold residual
  rw [Finset.sum_eq_zero_iff_of_nonneg (fun _ _ => sq_nonneg _)]
  constructor
  · intro h i hi
    have := h i (Finset.mem_range.mpr hi)
    exact sub_eq_zero.mp (pow_eq_zero_iff (two_ne_zero) |>.mp this)
  · intro h i hi
    rw [h i (Finset.mem_range.mp hi), sub_self]
    simp

/-- A least-squares solution of a consistent system solves it. -/
theorem IsLeastSquares.exact {A : MatrixXd K} {y c : List K} (h : IsLeastSquares A y c)
    (c' : List K) (hc' : c'.length = A.cols) (h0 : residual A y c' = 0) :
    residual A y c = 0 :=
  le_antisymm (h0 ▸ h.2 c' hc') (residual_nonneg A y c)

/-- A vector with zero residual is a least-squares solution. -/
theorem isLeastSquares_of_residual_eq_zero (A : MatrixXd K) (y c : List K)
    (hc : c.length = A.cols) (h0 : residual A y c = 0) : IsLeastSquares A y c :=
  ⟨hc, fun c' _ => h0 ▸ residual_nonneg A y c'⟩

/-- When the assertions of `polyfit` hold, it returns what the QR solve returns on the
Vandermonde matrix. -/
theorem polyfit_eq (E : Eigen K) (xvals yvals : List K) (order : ℕ)
    (hlen : xvals.length = yvals.length) (h1 : 1 ≤ order) (h2 : order + 1 ≤ xvals.length) :
    polyfit E xvals yvals order
      = .ok (E.householderQrSolve (vandermondeMatrix E xvals order) yvals) := by
  unfold polyfit
  have h3 : (1 ≤ order ∧ (order : ℤ) ≤ (xvals.length : ℤ) - 1) := ⟨h1, by omega⟩
  rw [if_neg (not_not.mpr hlen), if_neg (not_not.mpr h3), polyfitMatrix_eq]
  rfl

/-- If the data lie on a polynomial `c'` of degree at most `order`, the fitted
polynomial passes through every data point. -/
theorem polyfit_exact (E : Eigen K) (xvals yvals : List K) (order : ℕ)
    (hlen : xvals.length = yvals.length) (h1 : 1 ≤ order) (h2 : order + 1 ≤ xvals.length)
    (hqr : ∀ A, polyfitMatrix E xvals order = .ok A →
      IsLeastSquares A yvals (E.householderQrSolve A yvals))
    (c' : List K) (hc' : c'.length = order + 1)
    (hfit : ∀ i < xvals.length, polyeval c' (xvals.getD i 0) = yvals.getD i 0) :
    ∃ c, polyfit E xvals yvals order = .ok c ∧ c.length = order + 1 ∧
      ∀ i < xvals.length, polyeval c (xvals.getD i 0) = yvals.getD i 0 := by
  have hls := hqr _ (polyfitMatrix_eq E xvals order)
  refine ⟨_, polyfit_eq E xvals yvals order hlen h1 h2, hls.1, fun i hi => ?_⟩
  have hz : residual (vandermondeMatrix E xvals order) yvals c' = 0 := by
    rw [residual_eq_zero_iff]
    intro r hr
    rw [vandermonde_row E xvals c' order r hr hc']
    exact hfit r hr
  have := (residual_eq_zero_iff _ _ _).mp (hls.exact c' hc' hz) i hi
  rw [vandermonde_row E xvals _ order i hi hls.1] at this
  exact this

end

section
variable {K : Type} [LinearOrderedField K]

/-- Distinct nodes admit an interpolating coefficient vector. -/
theorem exists_interpolant {n : ℕ} (v y : Fin n → K) (hv : Function.Injective v) :
    ∃ a : Fin n → K, ∀ i, ∑ j : Fin n, a j * v i ^ (j : ℕ) = y i := by
  have hdet : (Matrix.vandermonde v).det ≠ 0 := Matrix.det_vandermonde_ne_zero_iff.mpr hv
  refine ⟨(Matrix.vandermonde v)⁻¹.mulVec y, fun i => ?_⟩
  have h := congrFun (Matrix.mulVec_mulVec y (Matrix.vandermonde v) (Matrix.vandermonde v)⁻¹) i
  rw [Matrix.mul_nonsing_inv _ (Ne.isUnit hdet), Matrix.one_mulVec] at h
  rw [← h]
  simp only [Matrix.mulVec, Matrix.dotProduct, Matrix.vandermonde_apply]
  exact Finset.sum_congr rfl fun j _ => mul_comm _ _

/-- A polynomial of degree below `n` vanishing at `n` distinct nodes has zero
coefficients. -/
theorem coeffs_eq_zero_of_roots {n : ℕ} (v d : Fin n → K) (hv : Function.Injective v)
    (h : ∀ i, ∑ j : Fin n, d j * v i ^ (j : ℕ) = 0) : d = 0 := by
  have hdet : (Matrix.vandermonde v).det ≠ 0 := Matrix.det_vandermonde_ne_zero_iff.mpr hv
  apply Matrix.eq_zero_of_mulVec_eq_zero hdet
  funext i
  simp only [Matrix.mulVec, Matrix.dotProduct, Matrix.vandermonde_apply, Pi.zero_apply]
  rw [← h i]
  exact Finset.sum_congr rfl fun j _ => mul_comm _ _

end

section
variable {K : Type} [LinearOrderedField K]

/-- Quantifying over the points of two parallel arrays is quantifying over indices. -/
theorem forall_mem_zip_iff (xs ys : List K) (hlen : xs.length = ys.length)
    (P : K → K → Prop) :
    (∀ p ∈ xs.zip ys, P p.1 p.2) ↔ ∀ i < xs.length, P (xs.getD i 0) (ys.getD i 0) := by
  constructor
  · intro h i hi
    have hi' : i < ys.length := hlen ▸ hi
    have hz : i < (xs.zip ys).length := by simp [List.length_zip, hi, hi']
    have := h _ (List.getElem_mem hz)
    simpa [List.getElem_zip, List.getD_eq_getElem?_getD, List.getElem?_eq_getElem hi,
      List.getElem?_eq_getElem hi'] using this
  · intro h p hp
    obtain ⟨i, hi, rfl⟩ := List.getElem_of_mem hp
    have hix : i < xs.length := by
      simp [List.length_zip] at hi
      exact hi.1
    have hiy : i < ys.length := hlen ▸ hix
    have := h i hix
    simpa [List.getElem_zip, List.getD_eq_getElem?_getD, List.getElem?_eq_getElem hix,
      List.getElem?_eq_getElem hiy] using this

theorem getD_ofFn {n : ℕ} (a : Fin n → K) (j : Fin n) : (List.ofFn a).getD j 0 = a j := by
  simp [List.getD_eq_getElem?_getD, List.getElem?_ofFn]

/-- Evaluating the coefficient list of a function on `Fin n`. -/
theorem polyeval_ofFn {n : ℕ} (a : Fin n → K) (x : K) :
    polyeval (List.ofFn a) x = ∑ j : Fin n, a j * x ^ (j : ℕ) := by
  rw [polyeval_eq_sum, List.length_ofFn, Finset.sum_range]
  exact Finset.sum_congr rfl fun j _ => by rw [getD_ofFn]

/-- Interpolation of `n` points with distinct abscissae by a polynomial of degree
`n - 1`, through `polyfit`. -/
theorem polyfit_through_points (E : Eigen K) (xvals yvals : List K) (order : ℕ)
    (hx : xvals.length = order + 1) (hy : yvals.length = order + 1) (h1 : 1 ≤ order)
    (hd : xvals.Nodup)
    (hqr : ∀ A, polyfitMatrix E xvals order = .ok A →
      IsLeastSquares A yvals (E.householderQrSolve A yvals)) :
    ∃ c, polyfit E xvals yvals order = .ok c ∧ c.length = order + 1 ∧
      ∀ p ∈ xvals.zip yvals, polyeval c p.1 = p.2 := by
  have hlen : xvals.length = yvals.length := hx.trans hy.symm
  obtain ⟨a, ha⟩ := exists_interpolant
    (fun i : Fin (order + 1) => xvals.get (i.cast hx.symm))
    (fun i : Fin (order + 1) => yvals.get (i.cast hy.symm))
    ((List.nodup_iff_injective_get.mp hd).comp (Fin.cast_injective _))
  obtain ⟨c, hc, hcl, hfit⟩ := polyfit_exact E xvals yvals order hlen h1 (by omega) hqr
    (List.ofFn a) (by simp)
    (fun i hi => by
      have hi' : i < order + 1 := hx ▸ hi
      have hiy : i < yvals.length := hlen ▸ hi
      have := ha ⟨i, hi'⟩
      rw [polyeval_ofFn]
      simpa [List.getD_eq_getElem?_getD, List.getElem?_eq_getElem hi,
        List.getElem?_eq_getElem hiy] using this)
  exact ⟨c, hc, hcl, (forall_mem_zip_iff xvals yvals hlen (fun x y => polyeval c x = y)).mpr hfit⟩

end

section
variable {K : Type} [LinearOrderedField K]

theorem polyeval_four (a0 a1 a2 a3 x : K) :
    polyeval [a0, a1, a2, a3] x = a0 + a1 * x + a2 * x ^ 2 + a3 * x ^ 3 := by
  simp [polyeval, polyevalLoop]

/-- Two cubics that agree on four distinct abscissae have the same coefficients. -/
theorem cubic_unique (a0 a1 a2 a3 b0 b1 b2 b3 : K) (s : Finset K) (hs : 4 ≤ s.card)
    (h : ∀ x ∈ s, polyeval [a0, a1, a2, a3] x = polyeval [b0, b1, b2, b3] x) :
    [a0, a1, a2, a3] = [b0, b1, b2, b3] := by
  obtain ⟨t, hts, ht⟩ := Finset.exists_subset_card_eq hs
  have hd := coeffs_eq_zero_of_roots (t.orderEmbOfFin ht) ![a0 - b0, a1 - b1, a2 - b2, a3 - b3]
    (t.orderEmbOfFin ht).injective
    (fun i => by
      have hx := h _ (hts (Finset.orderEmbOfFin_mem t ht i))
      rw [polyeval_four, polyeval_four] at hx
      simp only [Fin.sum_univ_four, Matrix.cons_val_zero, Matrix.cons_val_one, Matrix.head_cons,
        Matrix.cons_val_two, Matrix.tail_cons, Matrix.cons_val_three, Fin.val_zero, Fin.val_one,
        Fin.val_two, pow_zero, pow_one]
      have h3 : ((3 : Fin 4) : ℕ) = 3 := rfl
      rw [h3]
      linear_combination hx)
  have e0 := congrFun hd 0
  have e1 := congrFun hd 1
  have e2 := congrFun hd 2
  have e3 := congrFun hd 3
  simp at e0 e1 e2 e3
  rw [sub_eq_zero.mp e0, sub_eq_zero.mp e1, sub_eq_zero.mp e2, sub_eq_zero.mp e3]

/-- A degree-3 fit of data on a cubic `c'`, with at least four distinct abscissae,
returns the coefficients of that cubic. -/
theorem polyfit_recovers_cubic (E : Eigen K) (xvals yvals : List K) (b0 b1 b2 b3 : K)
    (hlen : xvals.length = yvals.length) (hdist : 4 ≤ xvals.toFinset.card)
    (hdata : ∀ p ∈ xvals.zip yvals, polyeval [b0, b1, b2, b3] p.1 = p.2)
    (hqr : ∀ A, polyfitMatrix E xvals 3 = .ok A →
      IsLeastSquares A yvals (E.householderQrSolve A yvals)) :
    polyfit E xvals yvals 3 = .ok [b0, b1, b2, b3] := by
  have hn : 4 ≤ xvals.length := le_trans hdist (List.toFinset_card_le xvals)
  obtain ⟨c, hc, hcl, hfit⟩ := polyfit_exact E xvals yvals 3 hlen (by norm_num) hn hqr
    [b0, b1, b2, b3] rfl
    ((forall_mem_zip_iff xvals yvals hlen (fun x y => polyeval [b0, b1, b2, b3] x = y)).mp hdata)
  have hdata' :=
    (forall_mem_zip_iff xvals yvals hlen (fun x y => polyeval [b0, b1, b2, b3] x = y)).mp hdata
  rw [hc]
  rcases c with _ | ⟨a0, _ | ⟨a1, _ | ⟨a2, _ | ⟨a3, _ | ⟨a4, r⟩⟩⟩⟩⟩ <;> simp at hcl
  congr 1
  apply cubic_unique a0 a1 a2 a3 b0 b1 b2 b3 xvals.toFinset hdist
  intro x hx
  obtain ⟨i, hi, rfl⟩ := List.getElem_of_mem (List.mem_toFinset.mp hx)
  have e1 := hfit i hi
  have e2 := hdata' i hi
  simp only [List.getD_eq_getElem?_getD, List.getElem?_eq_getElem hi, Option.getD_some] at e1 e2
  rw [e1, e2]

end

/-- The compensation step in the form the code computes it. -/
theorem optimizerInput_eq (E : Eigen ℝ) (t : Telemetry) (wx wy poly : List ℝ) (c1 : ℝ)
    (hwp : localWaypoints E t = .ok (wx, wy)) (hfit : polyfit E wx wy 3 = .ok poly)
    (hc1 : poly[1]? = some c1) :
    optimizerInput E t = .ok
      ([0.0 + t.v * (1609.344 / 3600) * 0.1, 0.0,
        0.0 + t.v * (1609.344 / 3600) * -t.delta / 2.67 * 0.1,
        t.v * (1609.344 / 3600) + t.a * 0.1,
        polyeval poly 0 + t.v * (1609.344 / 3600) * Real.sin (-Real.arctan c1) * 0.1,
        -Real.arctan c1 + t.v * (1609.344 / 3600) * -t.delta / 2.67 * 0.1], poly) := by
  have hget : VectorXd.get poly 1 = .ok c1 := by simp [VectorXd.get, hc1]
  simp only [optimizerInput, hwp, hfit, predictState, hget, bind, Except.bind, pure, Except.pure]

/-- C1: for every telemetry frame and fitted polynomial `poly`, the state vector handed to
the optimizer is `(v*dt, 0, v*(-delta/Lf)*dt, v + a*dt, cte0 + v*sin(epsi0)*dt,
epsi0 + v*(-delta/Lf)*dt)` with `v = s*1609.344/3600`, `dt = 0.1`, `Lf = 2.67`,
`cte0 = polyeval(poly, 0)` and `epsi0 = -atan(poly[1])`. -/
theorem optimizerInput_state (E : Eigen ℝ) (t : Telemetry) (wx wy poly : List ℝ) (c1 : ℝ)
    (hwp : localWaypoints E t = .ok (wx, wy)) (hfit : polyfit E wx wy 3 = .ok poly)
    (hc1 : poly[1]? = some c1) :
    optimizerInput E t = .ok
      ([t.v * 1609.344 / 3600 * 0.1, 0,
        t.v * 1609.344 / 3600 * (-t.delta / 2.67) * 0.1,
        t.v * 1609.344 / 3600 + t.a * 0.1,
        polyeval poly 0 + t.v * 1609.344 / 3600 * Real.sin (-Real.arctan c1) * 0.1,
        -Real.arctan c1 + t.v * 1609.344 / 3600 * (-t.delta / 2.67) * 0.1], poly) := by
  rw [optimizerInput_eq E t wx wy poly c1 hwp hfit hc1]
  congr 2
  have e1 : (0.0 : ℝ) = 0 := by norm_num
  have e2 : t.v * (1609.344 / 3600) = t.v * 1609.344 / 3600 := by ring
  rw [e1, e2]
  congr 1
  · ring
  congr 1
  congr 1
  · ring
  congr 1
  congr 1
  congr 1
  · ring

/-- C5: at telemetry speed 0 the compensated state has `px' = 0`, `psi' = 0`,
`cte' = cte0 = polyeval(poly, 0)` and `epsi' = epsi0 = -atan(poly[1])`, whatever the
steering angle, the throttle and the fitted polynomial. -/
theorem optimizerInput_at_rest (E : Eigen ℝ) (t : Telemetry) (wx wy poly : List ℝ) (c1 : ℝ)
    (hwp : localWaypoints E t = .ok (wx, wy)) (hfit : polyfit E wx wy 3 = .ok poly)
    (hc1 : poly[1]? = some c1) (hv : t.v = 0) :
    optimizerInput E t = .ok
      ([0, 0, 0, t.a * 0.1, polyeval poly 0, -Real.arctan c1], poly) := by
  rw [optimizerInput_eq E t wx wy poly c1 hwp hfit hc1, hv]
  congr 2
  norm_num

/-- The transform stage of the handler on parallel arrays of equal length. -/
theorem localWaypoints_eq (E : Eigen ℝ) (t : Telemetry) (h : t.ptsx.length = t.ptsy.length) :
    localWaypoints E t
      = .ok (((t.ptsx.zip t.ptsy).map (toLocal t.px t.py t.psi)).map Prod.fst,
             ((t.ptsx.zip t.ptsy).map (toLocal t.px t.py t.psi)).map Prod.snd) := by
  have hz : (t.ptsx.zip t.ptsy).length = t.ptsx.length := by simp [List.length_zip, h]
  have := CreateWayPoints_eq t.px t.py t.psi (t.ptsx.zip t.ptsy)
    (E.newVector t.ptsx.length) (E.newVector t.ptsy.length)
    (by simp [Eigen.newVector, hz]) (by simp [Eigen.newVector, hz, h])
  rw [List.map_fst_zip _ _ (le_of_eq h), List.map_snd_zip _ _ (le_of_eq h.symm)] at this
  exact this

/-- At the origin with heading 0 the transform is the identity. -/
theorem toLocal_origin (p : ℝ × ℝ) : toLocal 0 0 0 p = p := by
  simp [toLocal]

/-- C2: for every pose and every list of world points, `CreateWayPoints` followed by the
inverse rotation and translation recovers the world points, and the output has as many
points as the input. -/
theorem CreateWayPoints_roundtrip (x y psi : ℝ) (pts : List (ℝ × ℝ)) (x_wp y_wp : List ℝ)
    (hx : x_wp.length = pts.length) (hy : y_wp.length = pts.length) :
    ∃ lx ly, CreateWayPoints x_wp y_wp (pts.map Prod.fst) (pts.map Prod.snd) x y psi
        = .ok (lx, ly) ∧ lx.length = pts.length ∧ ly.length = pts.length ∧
      List.zipWith (fun a b => (a * Real.cos psi - b * Real.sin psi + x,
        a * Real.sin psi + b * Real.cos psi + y)) lx ly = pts := by
  refine ⟨_, _, CreateWayPoints_eq x y psi pts x_wp y_wp hx hy, by simp, by simp, ?_⟩
  clear hx hy
  induction pts with
  | nil => rfl
  | cons p ps ih =>
    simp only [List.map_cons, List.zipWith_cons_cons, ih]
    congr 1
    simp only [toLocal, Real.cos_neg, Real.sin_neg]
    ext
    · simp only
      linear_combination (p.1 - x) * Real.cos_sq_add_sin_sq psi
    · simp only
      linear_combination (p.2 - y) * Real.cos_sq_add_sin_sq psi

/-- Witness for C2: two world points seen from the pose `(1, 1, 0)`. -/
theorem CreateWayPoints_roundtrip_witness :
    ([0, 0] : List ℝ).length = [((1 : ℝ), (2 : ℝ)), (3, 4)].length ∧
    ∃ lx ly, CreateWayPoints [0, 0] [0, 0] ([(1, 2), (3, 4)].map Prod.fst)
        ([(1, 2), (3, 4)].map Prod.snd) 1 1 0 = .ok (lx, ly) ∧
      lx.length = [((1 : ℝ), (2 : ℝ)), (3, 4)].length ∧
      ly.length = [((1 : ℝ), (2 : ℝ)), (3, 4)].length ∧
      List.zipWith (fun a b => (a * Real.cos 0 - b * Real.sin 0 + 1,
        a * Real.sin 0 + b * Real.cos 0 + 1)) lx ly = [(1, 2), (3, 4)] :=
  ⟨rfl, CreateWayPoints_roundtrip 1 1 0 [(1, 2), (3, 4)] [0, 0] [0, 0] rfl rfl⟩

/-- The solver stub meets the least-squares condition wherever its vector has zero
residual. -/
theorem fixedSolver_isLeastSquares {K : Type} [LinearOrderedField K] (c xvals yvals : List K)
    (order : ℕ) (hc : c.length = order + 1)
    (h0 : residual (vandermondeMatrix (fixedSolver c) xvals order) yvals c = 0) :
    ∀ A, polyfitMatrix (fixedSolver c) xvals order = .ok A →
      IsLeastSquares A yvals ((fixedSolver c).householderQrSolve A yvals) := by
  intro A hA
  rw [polyfitMatrix_eq] at hA
  cases hA
  exact isLeastSquares_of_residual_eq_zero _ _ _ hc h0

/-- C3: for 4 points with pairwise distinct x-values, `polyfit(xvals, yvals, 3)` returns
4 coefficients whose polynomial passes through each of the 4 points. -/
theorem polyfit_interpolates {K : Type} [LinearOrderedField K] (E : Eigen K)
    (xvals yvals : List K) (hx : xvals.length = 4) (hy : yvals.length = 4)
    (hd : xvals.Nodup)
    (hqr : ∀ A, polyfitMatrix E xvals 3 = .ok A →
      IsLeastSquares A yvals (E.householderQrSolve A yvals)) :
    ∃ c, polyfit E xvals yvals 3 = .ok c ∧ c.length = 4 ∧
      ∀ p ∈ xvals.zip yvals, polyeval c p.1 = p.2 :=
  polyfit_through_points E xvals yvals 3 hx hy (by norm_num) hd hqr

/-- Witness for C3: the points `(0,0), (1,1), (2,8), (3,27)` of the cubic `x^3`. -/
theorem polyfit_interpolates_witness :
    ∃ c, polyfit (fixedSolver [0, 0, 0, 1]) ([0, 1, 2, 3] : List ℚ) [0, 1, 8, 27] 3 = .ok c ∧
      c.length = 4 ∧
      ∀ p ∈ ([0, 1, 2, 3] : List ℚ).zip [0, 1, 8, 27], polyeval c p.1 = p.2 :=
  polyfit_interpolates (fixedSolver [0, 0, 0, 1]) [0, 1, 2, 3] [0, 1, 8, 27] rfl rfl
    (by simp)
    (fixedSolver_isLeastSquares _ _ _ 3 rfl
      (by simp [residual, vandermondeMatrix, Finset.sum_range_succ]; norm_num))

/-- C4: for points on the line `y = k*x + c`, at least 4 of them with distinct x-values,
`polyfit(xvals, yvals, 3)` returns the coefficients `[c, k, 0, 0]`. -/
theorem polyfit_collinear {K : Type} [LinearOrderedField K] (E : Eigen K)
    (xvals yvals : List K) (k c : K)
    (hlen : xvals.length = yvals.length) (hdist : 4 ≤ xvals.toFinset.card)
    (hline : ∀ p ∈ xvals.zip yvals, p.2 = k * p.1 + c)
    (hqr : ∀ A, polyfitMatrix E xvals 3 = .ok A →
      IsLeastSquares A yvals (E.householderQrSolve A yvals)) :
    polyfit E xvals yvals 3 = .ok [c, k, 0, 0] :=
  polyfit_recovers_cubic E xvals yvals c k 0 0 hlen hdist
    (fun p hp => by rw [polyeval_four, hline p hp]; ring) hqr

/-- Witness for C4: five points of the line `y = 2*x + 1`. -/
theorem polyfit_collinear_witness :
    polyfit (fixedSolver [1, 2, 0, 0]) ([0, 1, 2, 3, 4] : List ℚ) [1, 3, 5, 7, 9] 3
      = .ok [1, 2, 0, 0] :=
  polyfit_collinear (fixedSolver [1, 2, 0, 0]) [0, 1, 2, 3, 4] [1, 3, 5, 7, 9] 2 1 rfl
    (by decide)
    (by simp; norm_num)
    (fixedSolver_isLeastSquares _ _ _ 3 rfl
      (by simp [residual, vandermondeMatrix, Finset.sum_range_succ]; norm_num))

/-- With the vehicle at the origin and heading 0, the transform stage returns the
waypoints unchanged. -/
theorem localWaypoints_origin (E : Eigen ℝ) (t : Telemetry)
    (hpx : t.px = 0) (hpy : t.py = 0) (hpsi : t.psi = 0)
    (h : t.ptsx.length = t.ptsy.length) :
    localWaypoints E t = .ok (t.ptsx, t.ptsy) := by
  rw [localWaypoints_eq E t h, hpx, hpy, hpsi]
  have : (t.ptsx.zip t.ptsy).map (toLocal 0 0 0) = t.ptsx.zip t.ptsy := by
    conv_rhs => rw [← List.map_id (t.ptsx.zip t.ptsy)]
    exact List.map_congr_left fun p _ => toLocal_origin p
  rw [this, List.map_fst_zip _ _ (le_of_eq h), List.map_snd_zip _ _ (le_of_eq h.symm)]

/-- C6: end to end, with the vehicle at the origin, heading 0 and speed 0, and reference
points on the x axis (at least 4 distinct x), the stages CreateWayPoints, polyfit and
latency compensation give the polynomial `[0,0,0,0]`, `cte = 0`, `epsi = 0` and a
compensated state with `px' = 0` (and `cte' = 0`, `epsi' = 0`). -/
theorem pipeline_on_axis (E : Eigen ℝ) (t : Telemetry)
    (hpx : t.px = 0) (hpy : t.py = 0) (hpsi : t.psi = 0) (hv : t.v = 0)
    (hy : t.ptsy = List.replicate t.ptsx.length 0)
    (hdist : 4 ≤ t.ptsx.toFinset.card)
    (hqr : ∀ wx wy, localWaypoints E t = .ok (wx, wy) →
      ∀ A, polyfitMatrix E wx 3 = .ok A → IsLeastSquares A wy (E.householderQrSolve A wy)) :
    ∃ wx wy poly, localWaypoints E t = .ok (wx, wy) ∧ polyfit E wx wy 3 = .ok poly ∧
      poly = [0, 0, 0, 0] ∧ polyeval poly 0 = 0 ∧
      (∃ c1, VectorXd.get poly 1 = .ok c1 ∧ -Real.arctan c1 = 0) ∧
      optimizerInput E t = .ok ([0, 0, 0, t.a * 0.1, 0, 0], poly) := by
  have hlen : t.ptsx.length = t.ptsy.length := by
    conv_rhs => rw [hy]
    simp
  have hwp := localWaypoints_origin E t hpx hpy hpsi hlen
  have hfit : polyfit E t.ptsx t.ptsy 3 = .ok [0, 0, 0, 0] :=
    polyfit_recovers_cubic E t.ptsx t.ptsy 0 0 0 0 hlen hdist
      (fun p hp => by
        have h2 : p.2 ∈ t.ptsy := (List.of_mem_zip hp).2
        rw [hy] at h2
        rw [polyeval_four, List.eq_of_mem_replicate h2]
        ring)
      (hqr _ _ hwp)
  refine ⟨t.ptsx, t.ptsy, [0, 0, 0, 0], hwp, hfit, rfl, by rw [polyeval_four]; ring,
    ⟨0, rfl, by simp⟩, ?_⟩
  rw [optimizerInput_eq E t _ _ _ 0 hwp hfit rfl, hv, polyeval_four]
  congr 2
  norm_num

/-- The stub solver returning the zero cubic is a least-squares solver for data that
are all zero. -/
theorem fixedSolver_zero_isLeastSquares (xvals : List ℝ) (n : ℕ) :
    ∀ A, polyfitMatrix (fixedSolver [0, 0, 0, 0]) xvals 3 = .ok A →
      IsLeastSquares A (List.replicate n 0)
        ((fixedSolver [0, 0, 0, 0]).householderQrSolve A (List.replicate n 0)) := by
  apply fixedSolver_isLeastSquares [0, 0, 0, 0] xvals (List.replicate n 0) 3 rfl
  rw [residual_eq_zero_iff]
  intro i hi
  rw [vandermonde_row (fixedSolver [0, 0, 0, 0]) xvals [0, 0, 0, 0] 3 i hi rfl, polyeval_four]
  simp [List.getD_eq_getElem?_getD, List.getElem?_replicate]
  split <;> rfl

theorem localWaypoints_axisTelemetry (E : Eigen ℝ) (v : ℝ) :
    localWaypoints E (axisTelemetry v) = .ok ([0, 1, 2, 3], [0, 0, 0, 0]) :=
  localWaypoints_origin E (axisTelemetry v) rfl rfl rfl rfl

theorem polyfit_axisTelemetry :
    polyfit (fixedSolver ([0, 0, 0, 0] : List ℝ)) [0, 1, 2, 3] [0, 0, 0, 0] 3
      = .ok [0, 0, 0, 0] :=
  polyfit_eq _ _ _ 3 rfl (by norm_num) (by simp)

/-- Witness for C1: the vehicle at the origin at 30 mph, four waypoints on the x axis. -/
theorem optimizerInput_state_witness :
    optimizerInput (fixedSolver [0, 0, 0, 0]) (axisTelemetry 30) = .ok
      ([(axisTelemetry 30).v * 1609.344 / 3600 * 0.1, 0,
        (axisTelemetry 30).v * 1609.344 / 3600 * (-(axisTelemetry 30).delta / 2.67) * 0.1,
        (axisTelemetry 30).v * 1609.344 / 3600 + (axisTelemetry 30).a * 0.1,
        polyeval [0, 0, 0, 0] 0
          + (axisTelemetry 30).v * 1609.344 / 3600 * Real.sin (-Real.arctan 0) * 0.1,
        -Real.arctan 0
          + (axisTelemetry 30).v * 1609.344 / 3600 * (-(axisTelemetry 30).delta / 2.67) * 0.1],
       [0, 0, 0, 0]) :=
  optimizerInput_state (fixedSolver [0, 0, 0, 0]) (axisTelemetry 30) [0, 1, 2, 3] [0, 0, 0, 0]
    [0, 0, 0, 0] 0 (localWaypoints_axisTelemetry _ 30) polyfit_axisTelemetry rfl

/-- Witness for C5: the same frame at speed 0. -/
theorem optimizerInput_at_rest_witness :
    optimizerInput (fixedSolver [0, 0, 0, 0]) (axisTelemetry 0) = .ok
      ([0, 0, 0, (axisTelemetry 0).a * 0.1, polyeval [0, 0, 0, 0] 0, -Real.arctan 0],
       [0, 0, 0, 0]) :=
  optimizerInput_at_rest (fixedSolver [0, 0, 0, 0]) (axisTelemetry 0) [0, 1, 2, 3] [0, 0, 0, 0]
    [0, 0, 0, 0] 0 (localWaypoints_axisTelemetry _ 0) polyfit_axisTelemetry rfl rfl

/-- Witness for C6: the vehicle at rest at the origin, waypoints `(0,0), ..., (3,0)`. -/
theorem pipeline_on_axis_witness :
    ∃ wx wy poly, localWaypoints (fixedSolver [0, 0, 0, 0]) (axisTelemetry 0) = .ok (wx, wy) ∧
      polyfit (fixedSolver [0, 0, 0, 0]) wx wy 3 = .ok poly ∧
      poly = [0, 0, 0, 0] ∧ polyeval poly 0 = 0 ∧
      (∃ c1, VectorXd.get poly 1 = .ok c1 ∧ -Real.arctan c1 = 0) ∧
      optimizerInput (fixedSolver [0, 0, 0, 0]) (axisTelemetry 0)
        = .ok ([0, 0, 0, (axisTelemetry 0).a * 0.1, 0, 0], poly) :=
  pipeline_on_axis (fixedSolver [0, 0, 0, 0]) (axisTelemetry 0) rfl rfl rfl rfl rfl
    (by
      show 4 ≤ ([0, 1, 2, 3] : List ℝ).toFinset.card
      rw [List.toFinset_card_of_nodup (by simp)]
      simp)
    (by
      intro wx wy hwp
      rw [localWaypoints_axisTelemetry] at hwp
      cases hwp
      exact fixedSolver_zero_isLeastSquares [0, 1, 2, 3] 4)

/-! ## The message handler -/

/-- A frame without NUL character is read whole (main.cpp, line 94). -/
theorem sdata_eq_self (msg : List Char) (h : '\x00' ∉ msg) :
    substr (cString msg) 0 msg.length = msg := by
  have h1 : cString msg = msg := by
    unfold cString
    rw [List.takeWhile_eq_self_iff]
    intro c hc
    simp only [bne_iff_ne, ne_eq]
    rintro rfl
    exact h hc
  rw [h1, substr, List.drop_zero, List.take_length]

/-- The guard of the handler: more than two characters, the first two being "42". -/
theorem guard_iff (sdata : List Char) :
    (sdata.length > 2 ∧ sdata[0]? = some '4' ∧ sdata[1]? = some '2')
      ↔ 2 < sdata.length ∧ "42".toList <+: sdata := by
  rcases sdata with _ | ⟨a, _ | ⟨b, r⟩⟩
  · simp
  · simp
  · show _ ↔ _ ∧ ['4', '2'] <+: a :: b :: r
    simp [List.cons_prefix_cons, eq_comm]

/-- Without the "42" prefix the handler sends nothing. -/
theorem onMessage_unprefixed {J : Type} (lib : JsonLib J) (E : Eigen ℝ) (mpc : MPC)
    (data : List Char) (length : ℕ) (sdata : List Char)
    (hsd : substr (cString data) 0 length = sdata)
    (h : ¬ (2 < sdata.length ∧ "42".toList <+: sdata)) :
    onMessage lib E mpc data length = .ok [] := by
  subst hsd
  unfold onMessage
  simp only []
  rw [if_neg (fun hg => h ((guard_iff _).mp hg))]
  rfl

/-- With the prefix and an empty extracted span the handler sends the manual frame. -/
theorem onMessage_no_span {J : Type} (lib : JsonLib J) (E : Eigen ℝ) (mpc : MPC)
    (data : List Char) (length : ℕ) (sdata : List Char)
    (hsd : substr (cString data) 0 length = sdata) (hlen : 2 < sdata.length)
    (h42 : "42".toList <+: sdata)
    (hs : hasData sdata = []) :
    onMessage lib E mpc data length = .ok [Frame.text manualMsg] := by
  subst hsd
  unfold onMessage
  simp only []
  rw [if_pos ((guard_iff _).mpr ⟨hlen, h42⟩)]
  simp only [hs, ne_eq, not_true_eq_false, if_false]
  rfl

/-- With the prefix and a non-empty span the handler parses the span, reads the event
name and, for a telemetry event, runs the telemetry branch. -/
theorem onMessage_span {J : Type} (lib : JsonLib J) (E : Eigen ℝ) (mpc : MPC)
    (data : List Char) (length : ℕ) (sdata : List Char)
    (hsd : substr (cString data) 0 length = sdata) (hlen : 2 < sdata.length)
    (h42 : "42".toList <+: sdata)
    (hs : hasData sdata ≠ []) :
    onMessage lib E mpc data length =
      (lib.parse (hasData sdata) >>= fun j => lib.getEvent j >>= fun event =>
        if event = "telemetry".toList then onTelemetry lib E mpc j >>= fun msg => pure [msg]
        else pure []) := by
  subst hsd
  unfold onMessage
  simp only []
  rw [if_pos ((guard_iff _).mpr ⟨hlen, h42⟩)]
  simp only [if_pos hs]

/-- A failing field access makes the field extraction fail. -/
theorem decodeTelemetry_error {J : Type} (lib : JsonLib J) (j : J)
    (h : (∃ key ∈ ["ptsx".toList, "ptsy".toList], ∃ e, lib.getVector j key = .error e) ∨
      (∃ key ∈ ["x".toList, "y".toList, "psi".toList, "speed".toList,
          "steering_angle".toList, "throttle".toList], ∃ e, lib.getDouble j key = .error e)) :
    ∃ e, decodeTelemetry lib j = .error e := by
  unfold decodeTelemetry
  cases h1 : lib.getVector j "ptsx".toList with
  | error e => exact ⟨e, rfl⟩
  | ok v1 =>
  cases h2 : lib.getVector j "ptsy".toList with
  | error e => exact ⟨e, rfl⟩
  | ok v2 =>
  cases h3 : lib.getDouble j "x".toList with
  | error e => exact ⟨e, rfl⟩
  | ok v3 =>
  cases h4 : lib.getDouble j "y".toList with
  | error e => exact ⟨e, rfl⟩
  | ok v4 =>
  cases h5 : lib.getDouble j "psi".toList with
  | error e => exact ⟨e, rfl⟩
  | ok v5 =>
  cases h6 : lib.getDouble j "speed".toList with
  | error e => exact ⟨e, rfl⟩
  | ok v6 =>
  cases h7 : lib.getDouble j "steering_angle".toList with
  | error e => exact ⟨e, rfl⟩
  | ok v7 =>
  cases h8 : lib.getDouble j "throttle".toList with
  | error e => exact ⟨e, rfl⟩
  | ok v8 =>
  exfalso
  rcases h with ⟨key, hk, e, he⟩ | ⟨key, hk, e, he⟩
  · simp only [List.mem_cons, List.mem_singleton, List.not_mem_nil, or_false] at hk
    rcases hk with rfl | rfl
    · rw [h1] at he; cases he
    · rw [h2] at he; cases he
  · simp only [List.mem_cons, List.mem_singleton, List.not_mem_nil, or_false] at hk
    rcases hk with rfl | rfl | rfl | rfl | rfl | rfl
    · rw [h3] at he; cases he
    · rw [h4] at he; cases he
    · rw [h5] at he; cases he
    · rw [h6] at he; cases he
    · rw [h7] at he; cases he
    · rw [h8] at he; cases he

/-- Counterexample to C9 as stated: the Engine.IO ping "2" has no bracketed span and the
text "null" contains "null", yet the handler answers neither (no frame is sent, where
the claim has exactly one manual frame). Nor does it answer the frame `42\0null`,
which it reads as "42" (the text stops at the NUL character). -/
theorem onMessage_manual_counterexample :
    ('[' ∉ "2".toList ∧
      onMessage connectOnlyJson (fixedSolver []) idleMPC "2".toList 1 = .ok [] ∧
      onMessage connectOnlyJson (fixedSolver []) idleMPC "2".toList 1
        ≠ .ok [Frame.text manualMsg]) ∧
    ("null".toList <:+: "null".toList ∧
      onMessage connectOnlyJson (fixedSolver []) idleMPC "null".toList 4 = .ok [] ∧
      onMessage connectOnlyJson (fixedSolver []) idleMPC "null".toList 4
        ≠ .ok [Frame.text manualMsg]) ∧
    ("null".toList <:+: "42\x00null".toList ∧ "42".toList <+: "42\x00null".toList ∧
      substr (cString "42\x00null".toList) 0 7 = "42".toList ∧
      onMessage connectOnlyJson (fixedSolver []) idleMPC "42\x00null".toList 7 = .ok [] ∧
      onMessage connectOnlyJson (fixedSolver []) idleMPC "42\x00null".toList 7
        ≠ .ok [Frame.text manualMsg]) := by
  have h1 : onMessage connectOnlyJson (fixedSolver []) idleMPC "2".toList 1 = .ok [] :=
    onMessage_unprefixed _ _ _ _ _ "2".toList (by decide) (by decide)
  have h2 : onMessage connectOnlyJson (fixedSolver []) idleMPC "null".toList 4 = .ok [] :=
    onMessage_unprefixed _ _ _ _ _ "null".toList (by decide) (by decide)
  have h3 : onMessage connectOnlyJson (fixedSolver []) idleMPC "42\x00null".toList 7
      = .ok [] :=
    onMessage_unprefixed _ _ _ _ _ "42".toList (by decide) (by decide)
  refine ⟨⟨by decide, h1, ?_⟩, ⟨by decide, h2, ?_⟩, ⟨by decide, by decide, by decide, h3, ?_⟩⟩
  · rw [h1]
    intro h
    cases h
  · rw [h2]
    intro h
    cases h
  · rw [h3]
    intro h
    cases h

/-- C9 (amended): for every inbound frame, let `sdata` be the text the handler reads
from it (main.cpp, line 94: the characters before the first NUL, at most `length` of
them). If `sdata` has more than two characters, starts with "42" and contains "null", or
has no '[', or has no "}]", the handler sends exactly one frame, the manual reply
`42["manual",{}]`, whatever the JSON library, the QR solver and the optimizer would do:
no later stage is consulted. -/
theorem onMessage_manual {J : Type} (lib : JsonLib J) (E : Eigen ℝ) (mpc : MPC)
    (data : List Char) (length : ℕ) (sdata : List Char)
    (hsd : substr (cString data) 0 length = sdata) (hlen : 2 < sdata.length)
    (h42 : "42".toList <+: sdata)
    (h : "null".toList <:+: sdata ∨ '[' ∉ sdata ∨ ¬ "\x7d]".toList <:+: sdata) :
    onMessage lib E mpc data length = .ok [Frame.text "42[\"manual\",\x7b\x7d]".toList] := by
  exact onMessage_no_span lib E mpc data length sdata hsd hlen h42 (hasData_eq_nil sdata h)

/-- Witness for C9 (amended): a "42" frame whose payload is null. -/
theorem onMessage_manual_witness :
    onMessage connectOnlyJson (fixedSolver []) idleMPC "42[\"telemetry\",null]".toList 20
      = .ok [Frame.text "42[\"manual\",\x7b\x7d]".toList] :=
  onMessage_manual connectOnlyJson (fixedSolver []) idleMPC "42[\"telemetry\",null]".toList 20
    "42[\"telemetry\",null]".toList (by decide) (by decide) (by decide) (Or.inl (by decide))

/-- Counterexample to C10 as stated: the "42"-prefixed message with the well-formed
event `["connect",{}]`, which is not a telemetry event, gets no reply at all, and the one
with the unparsable span `[oops}]` makes the parse exception leave the handler; neither
is answered with the manual frame. -/
theorem onMessage_malformed_counterexample :
    ("42".toList <+: "42[\"connect\",\x7b\x7d]".toList ∧
      hasData "42[\"connect\",\x7b\x7d]".toList = "[\"connect\",\x7b\x7d]".toList ∧
      connectOnlyJson.parse "[\"connect\",\x7b\x7d]".toList = .ok "connect".toList ∧
      connectOnlyJson.getEvent "connect".toList = .ok "connect".toList ∧
      onMessage connectOnlyJson (fixedSolver []) idleMPC "42[\"connect\",\x7b\x7d]".toList 16
        = .ok [] ∧
      onMessage connectOnlyJson (fixedSolver []) idleMPC "42[\"connect\",\x7b\x7d]".toList 16
        ≠ .ok [Frame.text manualMsg]) ∧
    ("42".toList <+: "42[oops\x7d]".toList ∧
      hasData "42[oops\x7d]".toList = "[oops\x7d]".toList ∧
      connectOnlyJson.parse "[oops\x7d]".toList = .error (.jsonException "parse error") ∧
      onMessage connectOnlyJson (fixedSolver []) idleMPC "42[oops\x7d]".toList 9
        = .error (.jsonException "parse error") ∧
      onMessage connectOnlyJson (fixedSolver []) idleMPC "42[oops\x7d]".toList 9
        ≠ .ok [Frame.text manualMsg]) := by
  have s1 : hasData "42[\"connect\",\x7b\x7d]".toList = "[\"connect\",\x7b\x7d]".toList := by
    decide
  have s2 : hasData "42[oops\x7d]".toList = "[oops\x7d]".toList := by decide
  have h1 : onMessage connectOnlyJson (fixedSolver []) idleMPC
      "42[\"connect\",\x7b\x7d]".toList 16 = .ok [] := by
    rw [onMessage_span _ _ _ _ _ "42[\"connect\",\x7b\x7d]".toList (by decide) (by decide)
      (by decide) (by decide), s1]
    rfl
  have h2 : onMessage connectOnlyJson (fixedSolver []) idleMPC "42[oops\x7d]".toList 9
      = .error (.jsonException "parse error") := by
    rw [onMessage_span _ _ _ _ _ "42[oops\x7d]".toList (by decide) (by decide) (by decide)
      (by decide), s2]
    rfl
  refine ⟨⟨by decide, s1, rfl, rfl, h1, ?_⟩, ⟨by decide, s2, rfl, h2, ?_⟩⟩
  · rw [h1]
    intro h
    cases h
  · rw [h2]
    intro h
    cases h

/-- C10 (amended): for every inbound frame, let `sdata` be the text the handler reads
from it (main.cpp, line 94: the characters before the first NUL, at most `length` of
them). If `sdata` has more than two characters, starts with "42" and has a non-empty
extracted span, then a span that names an event other than "telemetry" gets no reply and
the handler returns normally; a span that fails to parse, or whose event name or
telemetry fields cannot be read, makes the JSON library's exception leave the handler,
and no frame is sent. -/
theorem onMessage_malformed {J : Type} (lib : JsonLib J) (E : Eigen ℝ) (mpc : MPC)
    (data : List Char) (length : ℕ) (sdata : List Char)
    (hsd : substr (cString data) 0 length = sdata) (hlen : 2 < sdata.length)
    (h42 : "42".toList <+: sdata)
    (hs : hasData sdata ≠ []) :
    (∀ e, lib.parse (hasData sdata) = .error e → onMessage lib E mpc data length = .error e) ∧
    (∀ j e, lib.parse (hasData sdata) = .ok j → lib.getEvent j = .error e →
      onMessage lib E mpc data length = .error e) ∧
    (∀ j ev, lib.parse (hasData sdata) = .ok j → lib.getEvent j = .ok ev →
      ev ≠ "telemetry".toList → onMessage lib E mpc data length = .ok []) ∧
    (∀ j, lib.parse (hasData sdata) = .ok j → lib.getEvent j = .ok "telemetry".toList →
      ((∃ key ∈ ["ptsx".toList, "ptsy".toList], ∃ e, lib.getVector j key = .error e) ∨
        (∃ key ∈ ["x".toList, "y".toList, "psi".toList, "speed".toList,
          "steering_angle".toList, "throttle".toList],
          ∃ e, lib.getDouble j key = .error e)) →
      ∃ e, onMessage lib E mpc data length = .error e) := by
  rw [onMessage_span lib E mpc data length sdata hsd hlen h42 hs]
  refine ⟨?_, ?_, ?_, ?_⟩
  · intro e he
    rw [he]
    rfl
  · intro j e hj he
    rw [hj]
    show (lib.getEvent j >>= _) = _
    rw [he]
    rfl
  · intro j ev hj hev hne
    rw [hj]
    show (lib.getEvent j >>= _) = _
    rw [hev]
    show (if ev = "telemetry".toList then _ else _) = _
    rw [if_neg hne]
    rfl
  · intro j hj hev hfield
    obtain ⟨e, he⟩ := decodeTelemetry_error lib j hfield
    refine ⟨e, ?_⟩
    rw [hj]
    show (lib.getEvent j >>= _) = _
    rw [hev]
    show (if "telemetry".toList = "telemetry".toList then
      (onTelemetry lib E mpc j >>= fun msg => pure [msg]) else pure []) = Except.error e
    rw [if_pos rfl]
    unfold onTelemetry
    rw [he]
    rfl

/-- Witness for C10 (amended): an event other than telemetry, in a frame whose text
ends at a NUL character, and an unparsable span. -/
theorem onMessage_malformed_witness :
    onMessage connectOnlyJson (fixedSolver []) idleMPC
        "42[\"connect\",\x7b\x7d]\x00xyz".toList 20 = .ok [] ∧
    onMessage connectOnlyJson (fixedSolver []) idleMPC "42[1,\x7d]".toList 7
        = .error (.jsonException "parse error") :=
  ⟨(onMessage_malformed connectOnlyJson (fixedSolver []) idleMPC
      "42[\"connect\",\x7b\x7d]\x00xyz".toList 20 "42[\"connect\",\x7b\x7d]".toList
      (by decide) (by decide) (by decide) (by decide)).2.2.1
      "connect".toList "connect".toList rfl rfl (by decide),
   (onMessage_malformed connectOnlyJson (fixedSolver []) idleMPC
      "42[1,\x7d]".toList 7 "42[1,\x7d]".toList (by decide) (by decide) (by decide)
      (by decide)).1
      (.jsonException "parse error") rfl⟩

/-- C15: `polyeval(c, x)` is the sum of `c[i] * x^i` over the indices of `c`, with
`x^0 = 1` also at `x = 0`; hence for a non-empty `c`, `polyeval(c, 0) = c[0]`, the
constant coefficient. -/
theorem polyeval_is_polynomial {K : Type} [Field K] :
    (∀ (coeffs : List K) (x : K),
      polyeval coeffs x = ∑ i in Finset.range coeffs.length, coeffs.getD i 0 * x ^ i) ∧
    (∀ (c0 : K) (cs : List K), polyeval (c0 :: cs) 0 = c0) ∧
    (∀ coeffs : List K, polyeval coeffs 0 = coeffs.getD 0 0) := by
  have h0 : ∀ (c0 : K) (cs : List K), polyeval (c0 :: cs) 0 = c0 := by
    intro c0 cs
    rw [polyeval_eq_sum, List.length_cons, Finset.sum_range_succ']
    simp
  refine ⟨polyeval_eq_sum, h0, fun coeffs => ?_⟩
  cases coeffs with
  | nil => simp [polyeval, polyevalLoop]
  | cons c0 cs => simpa using h0 c0 cs

/-- C16: for `n` x-values and an order `d` with `1 ≤ d ≤ n - 1`, the loops of `polyfit`
complete and the matrix handed to the QR solve is the `n × (d+1)` Vandermonde matrix:
`A(j, i) = xvals(j)^i` for `j < n`, `i ≤ d`, whatever the storage held before; column 0
is all ones. -/
theorem polyfit_design_matrix {K : Type} [Field K] (E : Eigen K) (xvals yvals : List K)
    (d : ℕ) (hlen : xvals.length = yvals.length) (h1 : 1 ≤ d) (h2 : d + 1 ≤ xvals.length) :
    ∃ A, polyfitMatrix E xvals d = .ok A ∧
      polyfit E xvals yvals d = .ok (E.householderQrSolve A yvals) ∧
      A.rows = xvals.length ∧ A.cols = d + 1 ∧
      (∀ j i, j < xvals.length → i ≤ d → A.coeff j i = xvals.getD j 0 ^ i) ∧
      (∀ j, j < xvals.length → A.coeff j 0 = 1) := by
  refine ⟨vandermondeMatrix E xvals d, polyfitMatrix_eq E xvals d, ?_, rfl, rfl, ?_, ?_⟩
  · unfold polyfit
    have h3 : (1 ≤ d ∧ (d : ℤ) ≤ (xvals.length : ℤ) - 1) := ⟨h1, by omega⟩
    rw [if_neg (not_not.mpr hlen), if_neg (not_not.mpr h3), polyfitMatrix_eq]
    rfl
  · intro j i hj hi
    simp only [vandermondeMatrix, if_pos (And.intro hj hi)]
  · intro j hj
    simp only [vandermondeMatrix, if_pos (And.intro hj (Nat.zero_le d)), pow_zero]

/-- Witness for C16: five abscissae, order 3. -/
theorem polyfit_design_matrix_witness :
    ∃ A, polyfitMatrix (fixedSolver [1, 2, 0, 0]) ([0, 1, 2, 3, 4] : List ℚ) 3 = .ok A ∧
      polyfit (fixedSolver [1, 2, 0, 0]) ([0, 1, 2, 3, 4] : List ℚ) [1, 3, 5, 7, 9] 3
        = .ok ((fixedSolver [1, 2, 0, 0]).householderQrSolve A [1, 3, 5, 7, 9]) ∧
      A.rows = ([0, 1, 2, 3, 4] : List ℚ).length ∧ A.cols = 3 + 1 ∧
      (∀ j i, j < ([0, 1, 2, 3, 4] : List ℚ).length → i ≤ 3 →
        A.coeff j i = ([0, 1, 2, 3, 4] : List ℚ).getD j 0 ^ i) ∧
      (∀ j, j < ([0, 1, 2, 3, 4] : List ℚ).length → A.coeff j 0 = 1) :=
  polyfit_design_matrix (fixedSolver [1, 2, 0, 0]) [0, 1, 2, 3, 4] [1, 3, 5, 7, 9] 3 rfl
    (by decide) (by decide)

/-- C17 fails on the code: for the message `42}]x[abc` the last "}]" (index 2) lies
before the first '[' (index 5), `b2 - b1 + 2` wraps around to `2^64 - 1`, and `hasData`
returns `[abc`, which is neither empty nor terminated by "}]". -/
theorem hasData_wraparound :
    strFindFirstOf "[".toList "42\x7d]x[abc".toList = some 5 ∧
    strRfind "\x7d]".toList "42\x7d]x[abc".toList = some 2 ∧
    spanLength 5 2 = 2 ^ 64 - 1 ∧
    hasData "42\x7d]x[abc".toList = "[abc".toList ∧
    ¬ "\x7d]".toList <:+ hasData "42\x7d]x[abc".toList := by
  decide

/-- The transform of one point preserves squared distances. -/
theorem toLocal_dist_sq (x y psi : ℝ) (p q : ℝ × ℝ) :
    ((toLocal x y psi p).1 - (toLocal x y psi q).1) ^ 2
        + ((toLocal x y psi p).2 - (toLocal x y psi q).2) ^ 2
      = (p.1 - q.1) ^ 2 + (p.2 - q.2) ^ 2 := by
  simp only [toLocal, Real.cos_neg, Real.sin_neg]
  linear_combination ((p.1 - q.1) ^ 2 + (p.2 - q.2) ^ 2) * Real.cos_sq_add_sin_sq psi

theorem toLocal_norm_sq (x y psi : ℝ) (p : ℝ × ℝ) :
    (toLocal x y psi p).1 ^ 2 + (toLocal x y psi p).2 ^ 2
      = (p.1 - x) ^ 2 + (p.2 - y) ^ 2 := by
  simp only [toLocal, Real.cos_neg, Real.sin_neg]
  linear_combination ((p.1 - x) ^ 2 + (p.2 - y) ^ 2) * Real.cos_sq_add_sin_sq psi

theorem toLocal_self (x y psi : ℝ) : toLocal x y psi (x, y) = (0, 0) := by
  simp [toLocal]

theorem getD_map_toLocal_fst (x y psi : ℝ) (pts : List (ℝ × ℝ)) (i : ℕ)
    (hi : i < pts.length) :
    ((pts.map (toLocal x y psi)).map Prod.fst).getD i 0 = (toLocal x y psi pts[i]).1 := by
  simp [List.getD_eq_getElem?_getD, List.getElem?_eq_getElem hi]

theorem getD_map_toLocal_snd (x y psi : ℝ) (pts : List (ℝ × ℝ)) (i : ℕ)
    (hi : i < pts.length) :
    ((pts.map (toLocal x y psi)).map Prod.snd).getD i 0 = (toLocal x y psi pts[i]).2 := by
  simp [List.getD_eq_getElem?_getD, List.getElem?_eq_getElem hi]

/-- C19: `CreateWayPoints` is an isometry. For every pose and list of world points, any
two transformed points are as far apart (squared Euclidean distance) as the two world
points; each transformed point is as far from the origin as its world point is from
the vehicle; a world point at the vehicle position maps to `(0, 0)`. -/
theorem CreateWayPoints_isometry (x y psi : ℝ) (pts : List (ℝ × ℝ)) (x_wp y_wp : List ℝ)
    (hx : x_wp.length = pts.length) (hy : y_wp.length = pts.length) :
    ∃ lx ly, CreateWayPoints x_wp y_wp (pts.map Prod.fst) (pts.map Prod.snd) x y psi
        = .ok (lx, ly) ∧
      (∀ i j (hi : i < pts.length) (hj : j < pts.length),
        (lx.getD i 0 - lx.getD j 0) ^ 2 + (ly.getD i 0 - ly.getD j 0) ^ 2
          = (pts[i].1 - pts[j].1) ^ 2 + (pts[i].2 - pts[j].2) ^ 2) ∧
      (∀ i (hi : i < pts.length),
        lx.getD i 0 ^ 2 + ly.getD i 0 ^ 2 = (pts[i].1 - x) ^ 2 + (pts[i].2 - y) ^ 2) ∧
      (∀ i (hi : i < pts.length), pts[i] = (x, y) → lx.getD i 0 = 0 ∧ ly.getD i 0 = 0) := by
  refine ⟨_, _, CreateWayPoints_eq x y psi pts x_wp y_wp hx hy, ?_, ?_, ?_⟩
  · intro i j hi hj
    rw [getD_map_toLocal_fst x y psi pts i hi, getD_map_toLocal_fst x y psi pts j hj,
      getD_map_toLocal_snd x y psi pts i hi, getD_map_toLocal_snd x y psi pts j hj]
    exact toLocal_dist_sq x y psi pts[i] pts[j]
  · intro i hi
    rw [getD_map_toLocal_fst x y psi pts i hi, getD_map_toLocal_snd x y psi pts i hi]
    exact toLocal_norm_sq x y psi pts[i]
  · intro i hi hp
    rw [getD_map_toLocal_fst x y psi pts i hi, getD_map_toLocal_snd x y psi pts i hi, hp,
      toLocal_self]
    exact ⟨rfl, rfl⟩

/-- Witness for C19: the points `(1, 2)` and `(4, 6)` seen from the pose `(1, 2, 1/2)`. -/
theorem CreateWayPoints_isometry_witness :
    ∃ lx ly, CreateWayPoints [0, 0] [0, 0] ([((1 : ℝ), (2 : ℝ)), (4, 6)].map Prod.fst)
        ([((1 : ℝ), (2 : ℝ)), (4, 6)].map Prod.snd) 1 2 (1 / 2) = .ok (lx, ly) ∧
      (lx.getD 0 0 - lx.getD 1 0) ^ 2 + (ly.getD 0 0 - ly.getD 1 0) ^ 2
          = ((1 : ℝ) - 4) ^ 2 + ((2 : ℝ) - 6) ^ 2 ∧
      lx.getD 1 0 ^ 2 + ly.getD 1 0 ^ 2 = ((4 : ℝ) - 1) ^ 2 + ((6 : ℝ) - 2) ^ 2 ∧
      (lx.getD 0 0 = 0 ∧ ly.getD 0 0 = 0) := by
  obtain ⟨lx, ly, hrun, hd, hn, hz⟩ :=
    CreateWayPoints_isometry 1 2 (1 / 2) [(1, 2), (4, 6)] [0, 0] [0, 0] rfl rfl
  exact ⟨lx, ly, hrun, hd 0 1 (by decide) (by decide), hn 1 (by decide),
    hz 0 (by decide) rfl⟩

/-- C18: for a telemetry frame whose `ptsx` and `ptsy` have the same length `n ≥ 4`, the
transform and the fit run without fault: every vector and matrix index is in range and
both assertions of `polyfit(.., 3)` hold, so the design matrix reaches the QR solve. -/
theorem transform_and_fit_reach_solve (E : Eigen ℝ) (t : Telemetry)
    (heq : t.ptsx.length = t.ptsy.length) (hn : 4 ≤ t.ptsx.length) :
    ∃ wx wy A, localWaypoints E t = .ok (wx, wy) ∧
      wx.length = t.ptsx.length ∧ wy.length = t.ptsx.length ∧
      polyfitMatrix E wx 3 = .ok A ∧ A.rows = t.ptsx.length ∧ A.cols = 4 ∧
      polyfit E wx wy 3 = .ok (E.householderQrSolve A wy) := by
  have hz : (t.ptsx.zip t.ptsy).length = t.ptsx.length := by simp [List.length_zip, heq]
  refine ⟨_, _, _, localWaypoints_eq E t heq, by simp [hz], by simp [hz],
    polyfitMatrix_eq E _ 3, by simp [vandermondeMatrix, hz], rfl, ?_⟩
  exact polyfit_eq E _ _ 3 (by simp) (by norm_num) (by simp [hz]; omega)

/-- Witness for C18: four waypoints on the x axis. -/
theorem transform_and_fit_reach_solve_witness :
    ∃ wx wy A, localWaypoints (fixedSolver [0, 0, 0, 0]) (axisTelemetry 0) = .ok (wx, wy) ∧
      wx.length = (axisTelemetry 0).ptsx.length ∧ wy.length = (axisTelemetry 0).ptsx.length ∧
      polyfitMatrix (fixedSolver [0, 0, 0, 0]) wx 3 = .ok A ∧
      A.rows = (axisTelemetry 0).ptsx.length ∧ A.cols = 4 ∧
      polyfit (fixedSolver [0, 0, 0, 0]) wx wy 3
        = .ok ((fixedSolver [0, 0, 0, 0]).householderQrSolve A wy) :=
  transform_and_fit_reach_solve (fixedSolver [0, 0, 0, 0]) (axisTelemetry 0) rfl
    (by simp [axisTelemetry])

/-- With the prefix, a span that parses and the event "telemetry", the handler sends
what the telemetry branch produces. -/
theorem onMessage_telemetry {J : Type} (lib : JsonLib J) (E : Eigen ℝ) (mpc : MPC)
    (data : List Char) (length : ℕ) (sdata : List Char)
    (hsd : substr (cString data) 0 length = sdata)
    (j : J) (hlen : 2 < sdata.length) (h42 : "42".toList <+: sdata)
    (hs : hasData sdata ≠ []) (hparse : lib.parse (hasData sdata) = .ok j)
    (hev : lib.getEvent j = .ok "telemetry".toList) :
    onMessage lib E mpc data length = (onTelemetry lib E mpc j >>= fun msg => pure [msg]) := by
  rw [onMessage_span lib E mpc data length sdata hsd hlen h42 hs, hparse]
  show (lib.getEvent j >>= _) = _
  rw [hev]
  show (if "telemetry".toList = "telemetry".toList then
    (onTelemetry lib E mpc j >>= fun msg => pure [msg]) else pure []) = _
  rw [if_pos rfl]

/-- The frame sent by the telemetry branch when every stage succeeds. -/
theorem onTelemetry_steer {J : Type} (lib : JsonLib J) (E : Eigen ℝ) (mpc : MPC) (j : J)
    (t : Telemetry) (sv poly : List ℝ) (r : MPCResult) (s0 th : ℝ)
    (hdec : decodeTelemetry lib j = .ok t) (hin : optimizerInput E t = .ok (sv, poly))
    (hsolve : mpc.Solve sv poly = .ok r)
    (h0 : r.actuator_output[0]? = some s0) (h1 : r.actuator_output[1]? = some th) :
    onTelemetry lib E mpc j = .ok (Frame.steer
      { steering_angle := s0 / deg2rad 25, throttle := th,
        mpc_x := r.ai_waypoints_x_, mpc_y := r.ai_waypoints_y_,
        next_x := (referenceTrace poly).1, next_y := (referenceTrace poly).2 }) := by
  have g0 : stdVectorAt r.actuator_output 0 = .ok s0 := by simp [stdVectorAt, h0]
  have g1 : stdVectorAt r.actuator_output 1 = .ok th := by simp [stdVectorAt, h1]
  simp only [onTelemetry, hdec, hin, hsolve, g0, g1, bind, Except.bind, pure, Except.pure]

/-- The frame sent by the handler for a telemetry message when every stage succeeds. -/
theorem onMessage_steer {J : Type} (lib : JsonLib J) (E : Eigen ℝ) (mpc : MPC)
    (data : List Char) (length : ℕ) (sdata : List Char)
    (hsd : substr (cString data) 0 length = sdata)
    (j : J) (t : Telemetry) (sv poly : List ℝ) (r : MPCResult)
    (s0 th : ℝ) (hlen : 2 < sdata.length) (h42 : "42".toList <+: sdata)
    (hs : hasData sdata ≠ []) (hparse : lib.parse (hasData sdata) = .ok j)
    (hev : lib.getEvent j = .ok "telemetry".toList)
    (hdec : decodeTelemetry lib j = .ok t) (hin : optimizerInput E t = .ok (sv, poly))
    (hsolve : mpc.Solve sv poly = .ok r)
    (h0 : r.actuator_output[0]? = some s0) (h1 : r.actuator_output[1]? = some th) :
    onMessage lib E mpc data length = .ok [Frame.steer
      { steering_angle := s0 / deg2rad 25, throttle := th,
        mpc_x := r.ai_waypoints_x_, mpc_y := r.ai_waypoints_y_,
        next_x := (referenceTrace poly).1, next_y := (referenceTrace poly).2 }] := by
  rw [onMessage_telemetry lib E mpc data length sdata hsd j hlen h42 hs hparse hev,
    onTelemetry_steer lib E mpc j t sv poly r s0 th hdec hin hsolve h0 h1]
  rfl

/-- The `push_back` loop of the reference trace collects the samples in order. -/
theorem trace_foldl (poly : List ℝ) (l : List ℝ) (acc : List ℝ × List ℝ) :
    l.foldl (fun (next : List ℝ × List ℝ) (i : ℝ) =>
        (next.1 ++ [2.5 * i], next.2 ++ [polyeval poly (2.5 * i)])) acc
      = (acc.1 ++ l.map (fun i : ℝ => 2.5 * i),
         acc.2 ++ l.map (fun i : ℝ => polyeval poly (2.5 * i))) := by
  induction l generalizing acc with
  | nil => simp
  | cons a l ih => simp [List.foldl_cons, ih, List.append_assoc]

/-- The loop counter `i = 1, ..., 24`, converted to `double`. -/
theorem trace_indices :
    (do let a ← List.range' 1 24; pure (a : ℝ) : List ℝ)
      = (List.range' 1 24).map (fun i : ℕ => (i : ℝ)) := by
  simp [List.range'_succ]

theorem referenceTrace_eq (poly : List ℝ) :
    referenceTrace poly
      = ((List.range' 1 24).map (fun i : ℕ => 2.5 * (i : ℝ)),
         (List.range' 1 24).map (fun i : ℕ => polyeval poly (2.5 * (i : ℝ)))) := by
  unfold referenceTrace
  simp only [Nat.add_one_sub_one, Nat.reduceSub]
  rw [trace_foldl, trace_indices]
  simp only [List.nil_append, List.map_map]
  rfl

/-- The samples of the reference trace, by index. -/
theorem referenceTrace_samples (poly : List ℝ) :
    (referenceTrace poly).1.length = 24 ∧ (referenceTrace poly).2.length = 24 ∧
    (∀ i : ℕ, 1 ≤ i → i ≤ 24 →
      (referenceTrace poly).1[i - 1]? = some (2.5 * (i : ℝ)) ∧
      (referenceTrace poly).2[i - 1]? = some (polyeval poly (2.5 * (i : ℝ)))) ∧
    (referenceTrace poly).1.head? = some 2.5 := by
  rw [referenceTrace_eq]
  refine ⟨by simp, by simp, fun i h1 h24 => ?_, by simp [List.range'_succ]⟩
  have hi : i - 1 < 24 := by omega
  have e : 1 + (i - 1) = i := by omega
  constructor
  · simp [List.getElem?_map, List.getElem?_range', hi, e]
  · simp [List.getElem?_map, List.getElem?_range', hi, e]

/-! ## Telemetry frames with too few points -/

/-- With fewer than 4 points the transform succeeds and the fit fails its assertion. -/
theorem polyfit_few_points (E : Eigen ℝ) (t : Telemetry)
    (heq : t.ptsx.length = t.ptsy.length) (hfew : t.ptsx.length < 4) :
    ∃ wx wy, localWaypoints E t = .ok (wx, wy) ∧
      polyfit E wx wy 3
        = .error (.assertFailed "order >= 1 && order <= xvals.size() - 1") := by
  have hz : (t.ptsx.zip t.ptsy).length = t.ptsx.length := by simp [List.length_zip, heq]
  refine ⟨_, _, localWaypoints_eq E t heq, ?_⟩
  unfold polyfit
  rw [if_neg (by simp), if_pos]
  simp only [List.length_map, hz, not_and, not_le]
  intro _
  omega

/-- With fewer than 4 points (in parallel arrays of equal length) the second assertion
of `polyfit` fails and the fault leaves the transform-fit-compensate stages. -/
theorem optimizerInput_few_points (E : Eigen ℝ) (t : Telemetry)
    (heq : t.ptsx.length = t.ptsy.length) (hfew : t.ptsx.length < 4) :
    optimizerInput E t
      = .error (.assertFailed "order >= 1 && order <= xvals.size() - 1") := by
  obtain ⟨wx, wy, hwp, hfit⟩ := polyfit_few_points E t heq hfew
  unfold optimizerInput
  simp only [hwp, hfit, bind, Except.bind]

/-- The handler on a telemetry message with fewer than 4 points. -/
theorem onMessage_few_points {J : Type} (lib : JsonLib J) (E : Eigen ℝ) (mpc : MPC)
    (data : List Char) (length : ℕ) (sdata : List Char)
    (hsd : substr (cString data) 0 length = sdata) (j : J) (t : Telemetry)
    (hlen : 2 < sdata.length)
    (h42 : "42".toList <+: sdata) (hs : hasData sdata ≠ [])
    (hparse : lib.parse (hasData sdata) = .ok j)
    (hev : lib.getEvent j = .ok "telemetry".toList) (hdec : decodeTelemetry lib j = .ok t)
    (heq : t.ptsx.length = t.ptsy.length) (hfew : t.ptsx.length < 4) :
    onMessage lib E mpc data length
      = .error (.assertFailed "order >= 1 && order <= xvals.size() - 1") := by
  rw [onMessage_telemetry lib E mpc data length sdata hsd j hlen h42 hs hparse hev]
  unfold onTelemetry
  simp only [hdec, optimizerInput_few_points E t heq hfew, bind, Except.bind]

/-! ## The example messages -/

set_option maxRecDepth 100000 in
theorem hasData_twoPointMsg : hasData twoPointMsg = twoPointMsg.drop 2 := by decide

set_option maxRecDepth 100000 in
theorem hasData_fourPointMsg : hasData fourPointMsg = fourPointMsg.drop 2 := by decide

set_option maxRecDepth 100000 in
theorem sdata_twoPointMsg :
    substr (cString twoPointMsg) 0 twoPointMsg.length = twoPointMsg :=
  sdata_eq_self twoPointMsg (by decide)

set_option maxRecDepth 100000 in
theorem sdata_fourPointMsg :
    substr (cString fourPointMsg) 0 fourPointMsg.length = fourPointMsg :=
  sdata_eq_self fourPointMsg (by decide)

theorem parse_twoPointMsg : twoPointJson.parse (hasData twoPointMsg) = .ok () := by
  rw [hasData_twoPointMsg]
  simp [twoPointJson, telemetryJson]

theorem parse_fourPointMsg : fourPointJson.parse (hasData fourPointMsg) = .ok () := by
  rw [hasData_fourPointMsg]
  simp [fourPointJson, telemetryJson]

theorem decode_twoPointMsg :
    decodeTelemetry twoPointJson () = .ok (restTelemetry [0, 10] [0, 0]) := rfl

theorem decode_fourPointMsg :
    decodeTelemetry fourPointJson () = .ok (restTelemetry [0, 1, 2, 3] [0, 0, 0, 0]) := rfl

/-- The optimizer input of the four-point example. -/
theorem optimizerInput_fourPoint :
    ∃ sv, optimizerInput (fixedSolver [0, 0, 0, 0]) (restTelemetry [0, 1, 2, 3] [0, 0, 0, 0])
      = .ok (sv, [0, 0, 0, 0]) :=
  ⟨_, optimizerInput_eq (fixedSolver [0, 0, 0, 0]) (restTelemetry [0, 1, 2, 3] [0, 0, 0, 0])
    [0, 1, 2, 3] [0, 0, 0, 0] [0, 0, 0, 0] 0
    (localWaypoints_origin _ _ rfl rfl rfl rfl) polyfit_axisTelemetry rfl⟩

/-- Counterexample to C11 as stated: the spec's two-point telemetry message fails the
assertion of `polyfit`; the fault leaves the handler and no manual frame is sent. -/
theorem onMessage_fit_error_counterexample :
    (restTelemetry [0, 10] [0, 0]).ptsx.length < 4 ∧
    decodeTelemetry twoPointJson () = .ok (restTelemetry [0, 10] [0, 0]) ∧
    onMessage twoPointJson (fixedSolver [0, 0, 0, 0]) idleMPC twoPointMsg twoPointMsg.length
      = .error (.assertFailed "order >= 1 && order <= xvals.size() - 1") ∧
    onMessage twoPointJson (fixedSolver [0, 0, 0, 0]) idleMPC twoPointMsg twoPointMsg.length
      ≠ .ok [Frame.text manualMsg] := by
  have h : onMessage twoPointJson (fixedSolver [0, 0, 0, 0]) idleMPC twoPointMsg
      twoPointMsg.length
      = .error (.assertFailed "order >= 1 && order <= xvals.size() - 1") :=
    onMessage_few_points twoPointJson _ _ twoPointMsg twoPointMsg.length twoPointMsg
    sdata_twoPointMsg () (restTelemetry [0, 10] [0, 0])
      (by decide) (by decide) (by rw [hasData_twoPointMsg]; decide) parse_twoPointMsg rfl
      decode_twoPointMsg rfl (by decide)
  refine ⟨by decide, rfl, h, ?_⟩
  rw [h]
  intro hc
  cases hc

/-- C11 (amended): for every telemetry message whose `ptsx` and `ptsy` have the same
length, below 4, the assertion `order >= 1 && order <= xvals.size() - 1` of `polyfit`
fails (the fit error) and leaves the handler: no frame is sent, neither a steer command
nor the manual reply. -/
theorem onMessage_fit_error {J : Type} (lib : JsonLib J) (E : Eigen ℝ) (mpc : MPC)
    (data : List Char) (length : ℕ) (sdata : List Char)
    (hsd : substr (cString data) 0 length = sdata) (j : J) (t : Telemetry)
    (hlen : 2 < sdata.length)
    (h42 : "42".toList <+: sdata) (hs : hasData sdata ≠ [])
    (hparse : lib.parse (hasData sdata) = .ok j)
    (hev : lib.getEvent j = .ok "telemetry".toList) (hdec : decodeTelemetry lib j = .ok t)
    (heq : t.ptsx.length = t.ptsy.length) (hfew : t.ptsx.length < 4) :
    (∃ wx wy, localWaypoints E t = .ok (wx, wy) ∧
      polyfit E wx wy 3
        = .error (.assertFailed "order >= 1 && order <= xvals.size() - 1")) ∧
    onMessage lib E mpc data length
        = .error (.assertFailed "order >= 1 && order <= xvals.size() - 1") :=
  ⟨polyfit_few_points E t heq hfew,
    onMessage_few_points lib E mpc data length sdata hsd j t hlen h42 hs hparse hev hdec heq hfew⟩

/-- Witness for C11 (amended): the two-point message. -/
theorem onMessage_fit_error_witness :
    (∃ wx wy, localWaypoints (fixedSolver [0, 0, 0, 0]) (restTelemetry [0, 10] [0, 0])
        = .ok (wx, wy) ∧
      polyfit (fixedSolver [0, 0, 0, 0]) wx wy 3
        = .error (.assertFailed "order >= 1 && order <= xvals.size() - 1")) ∧
    onMessage twoPointJson (fixedSolver [0, 0, 0, 0]) idleMPC twoPointMsg twoPointMsg.length
        = .error (.assertFailed "order >= 1 && order <= xvals.size() - 1") :=
  onMessage_fit_error twoPointJson (fixedSolver [0, 0, 0, 0]) idleMPC twoPointMsg
    twoPointMsg.length twoPointMsg
    sdata_twoPointMsg ()
    (restTelemetry [0, 10] [0, 0]) (by decide) (by decide)
    (by rw [hasData_twoPointMsg]; decide) parse_twoPointMsg rfl decode_twoPointMsg rfl
    (by decide)

/-! ## The steer reply -/

theorem deg2rad_25_pos : 0 < deg2rad 25 := by
  unfold deg2rad pi
  have := Real.pi_pos
  positivity

theorem deg2rad_25_lt_one : deg2rad 25 < 1 := by
  unfold deg2rad pi
  have := Real.pi_lt_four
  linarith

/-- C12: in every steer reply the reference trace `next_x`, `next_y` has exactly 24
points, the one of index `i - 1` being `(2.5*i, polyeval(poly, 2.5*i))` for `i = 1..24`,
`poly` the fitted polynomial; the first sample is at `x = 2.5`. -/
theorem steer_reference_trace {J : Type} (lib : JsonLib J) (E : Eigen ℝ) (mpc : MPC)
    (data : List Char) (length : ℕ) (sdata : List Char)
    (hsd : substr (cString data) 0 length = sdata)
    (j : J) (t : Telemetry) (sv poly : List ℝ) (r : MPCResult)
    (s0 th : ℝ) (hlen : 2 < sdata.length) (h42 : "42".toList <+: sdata)
    (hs : hasData sdata ≠ []) (hparse : lib.parse (hasData sdata) = .ok j)
    (hev : lib.getEvent j = .ok "telemetry".toList)
    (hdec : decodeTelemetry lib j = .ok t) (hin : optimizerInput E t = .ok (sv, poly))
    (hsolve : mpc.Solve sv poly = .ok r)
    (h0 : r.actuator_output[0]? = some s0) (h1 : r.actuator_output[1]? = some th) :
    ∃ m, onMessage lib E mpc data length = .ok [Frame.steer m] ∧
      m.next_x.length = 24 ∧ m.next_y.length = 24 ∧
      (∀ i : ℕ, 1 ≤ i → i ≤ 24 →
        m.next_x[i - 1]? = some (2.5 * (i : ℝ)) ∧
        m.next_y[i - 1]? = some (polyeval poly (2.5 * (i : ℝ)))) ∧
      m.next_x.head? = some 2.5 :=
  ⟨_, onMessage_steer lib E mpc data length sdata hsd j t sv poly r s0 th hlen h42 hs hparse hev
    hdec hin
    hsolve h0 h1, referenceTrace_samples poly⟩

/-- C13: in every steer reply the steering angle is the optimizer's steering output
`s0` divided by `25*pi/180` and the throttle is the optimizer's throttle unchanged; the
output `25*pi/180` (25 degrees) normalizes to exactly 1 and the output 0 to 0. -/
theorem steer_normalization {J : Type} (lib : JsonLib J) (E : Eigen ℝ) (mpc : MPC)
    (data : List Char) (length : ℕ) (sdata : List Char)
    (hsd : substr (cString data) 0 length = sdata)
    (j : J) (t : Telemetry) (sv poly : List ℝ) (r : MPCResult)
    (s0 th : ℝ) (hlen : 2 < sdata.length) (h42 : "42".toList <+: sdata)
    (hs : hasData sdata ≠ []) (hparse : lib.parse (hasData sdata) = .ok j)
    (hev : lib.getEvent j = .ok "telemetry".toList)
    (hdec : decodeTelemetry lib j = .ok t) (hin : optimizerInput E t = .ok (sv, poly))
    (hsolve : mpc.Solve sv poly = .ok r)
    (h0 : r.actuator_output[0]? = some s0) (h1 : r.actuator_output[1]? = some th) :
    ∃ m, onMessage lib E mpc data length = .ok [Frame.steer m] ∧
      m.steering_angle = s0 / (25 * Real.pi / 180) ∧ m.throttle = th ∧
      (s0 = 25 * Real.pi / 180 → m.steering_angle = 1) ∧
      (s0 = 0 → m.steering_angle = 0) := by
  refine ⟨_, onMessage_steer lib E mpc data length sdata hsd j t sv poly r s0 th hlen h42 hs
    hparse hev hdec
    hin hsolve h0 h1, rfl, rfl, ?_, ?_⟩
  · intro hmax
    show s0 / deg2rad 25 = 1
    rw [hmax]
    exact div_self (ne_of_gt deg2rad_25_pos)
  · intro hz
    show s0 / deg2rad 25 = 0
    rw [hz, zero_div]

/-- Counterexample to C14 as stated: nothing in `main.cpp` bounds the optimizer's
output. When the optimizer returns the steering output 1 (radian) for the four-point
message, the steer reply carries `steering_angle = 1 / (25*pi/180) > 1`. -/
theorem steer_range_counterexample :
    ∃ m, onMessage fourPointJson (fixedSolver [0, 0, 0, 0]) (fixedMPC [1, 0]) fourPointMsg
      fourPointMsg.length
        = .ok [Frame.steer m] ∧
      m.steering_angle = 1 / deg2rad 25 ∧ 1 < m.steering_angle ∧
      ¬ (-1 ≤ m.steering_angle ∧ m.steering_angle ≤ 1) := by
  obtain ⟨sv, hin⟩ := optimizerInput_fourPoint
  have hgt : 1 < 1 / deg2rad 25 := (one_lt_div deg2rad_25_pos).mpr deg2rad_25_lt_one
  exact ⟨_, onMessage_steer fourPointJson (fixedSolver [0, 0, 0, 0]) (fixedMPC [1, 0])
    fourPointMsg fourPointMsg.length fourPointMsg
    sdata_fourPointMsg () (restTelemetry [0, 1, 2, 3] [0, 0, 0, 0]) sv [0, 0, 0, 0]
    { actuator_output := [1, 0], ai_waypoints_x_ := [], ai_waypoints_y_ := [] } 1 0
    (by decide) (by decide) (by rw [hasData_fourPointMsg]; decide) parse_fourPointMsg rfl
    decode_fourPointMsg hin rfl rfl rfl, rfl, hgt, fun h => absurd h.2 (not_le.mpr hgt)⟩

/-- C14 (amended): in every steer reply whose optimizer steering output `s0` lies within
25 degrees, `|s0| ≤ 25*pi/180` (the range the comment at main.cpp lines 161-162 expects
of the optimizer), the steering angle lies in `[-1, 1]`. -/
theorem steer_range {J : Type} (lib : JsonLib J) (E : Eigen ℝ) (mpc : MPC)
    (data : List Char) (length : ℕ) (sdata : List Char)
    (hsd : substr (cString data) 0 length = sdata)
    (j : J) (t : Telemetry) (sv poly : List ℝ) (r : MPCResult)
    (s0 th : ℝ) (hlen : 2 < sdata.length) (h42 : "42".toList <+: sdata)
    (hs : hasData sdata ≠ []) (hparse : lib.parse (hasData sdata) = .ok j)
    (hev : lib.getEvent j = .ok "telemetry".toList)
    (hdec : decodeTelemetry lib j = .ok t) (hin : optimizerInput E t = .ok (sv, poly))
    (hsolve : mpc.Solve sv poly = .ok r)
    (h0 : r.actuator_output[0]? = some s0) (h1 : r.actuator_output[1]? = some th)
    (hbound : |s0| ≤ 25 * Real.pi / 180) :
    ∃ m, onMessage lib E mpc data length = .ok [Frame.steer m] ∧
      -1 ≤ m.steering_angle ∧ m.steering_angle ≤ 1 := by
  refine ⟨_, onMessage_steer lib E mpc data length sdata hsd j t sv poly r s0 th hlen h42 hs
    hparse hev hdec
    hin hsolve h0 h1, ?_, ?_⟩
  · show -1 ≤ s0 / deg2rad 25
    rw [le_div_iff₀ deg2rad_25_pos]
    have := (abs_le.mp hbound).1
    unfold deg2rad pi
    linarith
  · show s0 / deg2rad 25 ≤ 1
    rw [div_le_one deg2rad_25_pos]
    have := (abs_le.mp hbound).2
    unfold deg2rad pi
    linarith

/-- Witness for C12: the four-point message with an idle optimizer. -/
theorem steer_reference_trace_witness :
    ∃ m, onMessage fourPointJson (fixedSolver [0, 0, 0, 0]) idleMPC fourPointMsg fourPointMsg.length
        = .ok [Frame.steer m] ∧
      m.next_x.length = 24 ∧ m.next_y.length = 24 ∧
      (∀ i : ℕ, 1 ≤ i → i ≤ 24 →
        m.next_x[i - 1]? = some (2.5 * (i : ℝ)) ∧
        m.next_y[i - 1]? = some (polyeval [0, 0, 0, 0] (2.5 * (i : ℝ)))) ∧
      m.next_x.head? = some 2.5 := by
  obtain ⟨sv, hin⟩ := optimizerInput_fourPoint
  exact steer_reference_trace fourPointJson (fixedSolver [0, 0, 0, 0]) idleMPC fourPointMsg
    fourPointMsg.length fourPointMsg
    sdata_fourPointMsg ()
    (restTelemetry [0, 1, 2, 3] [0, 0, 0, 0]) sv [0, 0, 0, 0]
    { actuator_output := [0, 0], ai_waypoints_x_ := [], ai_waypoints_y_ := [] } 0 0
    (by decide) (by decide) (by rw [hasData_fourPointMsg]; decide) parse_fourPointMsg rfl
    decode_fourPointMsg hin rfl rfl rfl

/-- Witness for C13: the optimizer returns the steering output of 25 degrees and the
throttle 1/2. -/
theorem steer_normalization_witness :
    ∃ m, onMessage fourPointJson (fixedSolver [0, 0, 0, 0])
        (fixedMPC [25 * Real.pi / 180, 1 / 2]) fourPointMsg fourPointMsg.length = .ok
          [Frame.steer m] ∧
      m.steering_angle = 1 ∧ m.throttle = 1 / 2 := by
  obtain ⟨sv, hin⟩ := optimizerInput_fourPoint
  obtain ⟨m, hm, _, hth, hmax, _⟩ :=
    steer_normalization fourPointJson (fixedSolver [0, 0, 0, 0])
      (fixedMPC [25 * Real.pi / 180, 1 / 2]) fourPointMsg fourPointMsg.length fourPointMsg
    sdata_fourPointMsg ()
      (restTelemetry [0, 1, 2, 3] [0, 0, 0, 0]) sv [0, 0, 0, 0]
      { actuator_output := [25 * Real.pi / 180, 1 / 2], ai_waypoints_x_ := [],
        ai_waypoints_y_ := [] } (25 * Real.pi / 180) (1 / 2)
      (by decide) (by decide) (by rw [hasData_fourPointMsg]; decide) parse_fourPointMsg rfl
      decode_fourPointMsg hin rfl rfl rfl
  exact ⟨m, hm, hmax rfl, hth⟩

/-- Witness for C14 (amended): the optimizer returns the steering output 1/5 radian. -/
theorem steer_range_witness :
    ∃ m, onMessage fourPointJson (fixedSolver [0, 0, 0, 0]) (fixedMPC [1 / 5, 1 / 2])
        fourPointMsg fourPointMsg.length = .ok [Frame.steer m] ∧
      -1 ≤ m.steering_angle ∧ m.steering_angle ≤ 1 := by
  obtain ⟨sv, hin⟩ := optimizerInput_fourPoint
  exact steer_range fourPointJson (fixedSolver [0, 0, 0, 0]) (fixedMPC [1 / 5, 1 / 2])
    fourPointMsg fourPointMsg.length fourPointMsg
    sdata_fourPointMsg () (restTelemetry [0, 1, 2, 3] [0, 0, 0, 0]) sv [0, 0, 0, 0]
    { actuator_output := [1 / 5, 1 / 2], ai_waypoints_x_ := [], ai_waypoints_y_ := [] }
    (1 / 5) (1 / 2)
    (by decide) (by decide) (by rw [hasData_fourPointMsg]; decide) parse_fourPointMsg rfl
    decode_fourPointMsg hin rfl rfl rfl
    (by
      rw [abs_le]
      have := Real.pi_gt_three
      constructor <;> linarith)

end MpcController
